import Mathlib

/-!
Verification development for the photobooth template designer
(`src/components/TemplateDesigner.tsx`).

The designer core is shallowly embedded here: placeholder geometry uses exact
rationals (`ℚ`) in place of JS doubles, the React component state is a record
(`DesignerState`), and each handler is a pure state transformer translated
from the source.  JS arrays become `List`, `Map` lookups become association
lists, and `Math.min`/`Math.max` over nonempty spreads become `listMin` /
`listMax`.
-/

namespace TemplateDesigner

/-- The `fit` mode of a placeholder (`'cover' | 'contain'` in the source). -/
inductive Fit where
  | cover
  | contain
deriving DecidableEq, Repr

/-- A photo slot.  In the source an aspect-ratio lock is stored as a string
`"w:h"` and split on `':'` when used; here it is kept pre-parsed as the pair
of its two numeric components. -/
structure Placeholder where
  id : Int
  x : ℚ
  y : ℚ
  width : ℚ
  height : ℚ
  aspectRatio : Option (ℚ × ℚ)
  fit : Fit
deriving DecidableEq, Repr

/-- `MIN_SLOT_SIZE = 0.02` — minimum 2% of width/height. -/
def MIN_SLOT_SIZE : ℚ := 2/100

/-- `SNAP_THRESHOLD_PX = 10` — snap within 10px. -/
def SNAP_THRESHOLD_PX : ℚ := 10

/-- `Math.min(a, b)`. -/
def jsMin (a b : ℚ) : ℚ := if a ≤ b then a else b

/-- `Math.max(a, b)`. -/
def jsMax (a b : ℚ) : ℚ := if a ≤ b then b else a

/-- `Math.abs(a)`. -/
def jsAbs (a : ℚ) : ℚ := if a < 0 then -a else a

theorem jsMin_eq (a b : ℚ) : jsMin a b = min a b := (min_def a b).symm

theorem jsMax_eq (a b : ℚ) : jsMax a b = max a b := (max_def a b).symm

theorem jsAbs_eq (a : ℚ) : jsAbs a = |a| := by
  unfold jsAbs
  rcases lt_or_le a 0 with h | h
  · rw [if_pos h, abs_of_neg h]
  · rw [if_neg (not_lt.2 h), abs_of_nonneg h]

/-- `Math.min(...l)` for a nonempty list (every use in the source is guarded
by a nonemptiness check; the `[]` case is unreachable). -/
def listMin : List ℚ → ℚ
  | [] => 0
  | q :: qs => qs.foldl jsMin q

/-- `Math.max(...l)` for a nonempty list. -/
def listMax : List ℚ → ℚ
  | [] => 0
  | q :: qs => qs.foldl jsMax q

/-- The pair of templates: `layouts` state (`Placeholder[][]` of length 2). -/
abbrev LayoutPair := List Placeholder × List Placeholder

/-- Designer component state relevant to the placeholder model: the two
layouts, the active canvas index, the snapshot history plus cursor, the
selection, the clipboard, the two frame sources, the export flags, and the
canvas pixel dimensions (defaulting to 800×600 when no frame is loaded). -/
structure DesignerState where
  layouts : LayoutPair
  activeCanvasIdx : Fin 2
  history : List LayoutPair
  historyIndex : Nat
  selectedIds : List Int
  clipboard : List Placeholder
  frames : Option String × Option String
  exportSelection : Bool × Bool
  canvasW : ℚ
  canvasH : ℚ
deriving DecidableEq, Repr

/-- Read `layouts[activeCanvasIdx]`. -/
def LayoutPair.get (l : LayoutPair) (i : Fin 2) : List Placeholder :=
  if i = 0 then l.1 else l.2

/-- Write `layouts[activeCanvasIdx]` (the source copies the array and
replaces one entry). -/
def LayoutPair.set (l : LayoutPair) (i : Fin 2) (v : List Placeholder) : LayoutPair :=
  if i = 0 then (v, l.2) else (l.1, v)

/-- The derived `placeholders` value: the currently active layout. -/
def DesignerState.active (s : DesignerState) : List Placeholder :=
  s.layouts.get s.activeCanvasIdx

/-- The initial component state: both layouts empty, template A active, one
history entry `[[], []]` at cursor 0, nothing selected, export set to
`[true, false]`, default canvas 800×600, no frames. -/
def initState : DesignerState where
  layouts := ([], [])
  activeCanvasIdx := 0
  history := [([], [])]
  historyIndex := 0
  selectedIds := []
  clipboard := []
  frames := (none, none)
  exportSelection := (true, false)
  canvasW := 800
  canvasH := 600

/-- `recordHistory(newLayouts)`: truncate the history to `historyIndex + 1`
entries, append the new snapshot, and advance the cursor. -/
def recordHistory (s : DesignerState) (newLayouts : LayoutPair) : DesignerState :=
  { s with history := s.history.take (s.historyIndex + 1) ++ [newLayouts]
           historyIndex := s.historyIndex + 1 }

/-- `updateCurrentPlaceholders(updater, record)`: apply the updater to the
active layout and optionally record history.  The source early-returns when
the updater hands back the very same array object; every caller builds a
fresh array (`map`/`filter`/spread/literal), so that reference-equality
branch never fires and is omitted here. -/
def updateCurrentPlaceholders (s : DesignerState)
    (updater : List Placeholder → List Placeholder) (record : Bool := true) :
    DesignerState :=
  let nextLayout := updater s.active
  let newLayouts := s.layouts.set s.activeCanvasIdx nextLayout
  if record then
    { recordHistory s newLayouts with layouts := newLayouts }
  else
    { s with layouts := newLayouts }

/-- `undo()`: if the cursor is positive, step it back, restore that snapshot
and clear the selection; otherwise do nothing. -/
def undo (s : DesignerState) : DesignerState :=
  if s.historyIndex > 0 then
    { s with historyIndex := s.historyIndex - 1
             layouts := s.history.getD (s.historyIndex - 1) ([], [])
             selectedIds := [] }
  else s

/-- `redo()`: if the cursor is before the last entry, step it forward,
restore that snapshot and clear the selection; otherwise do nothing. -/
def redo (s : DesignerState) : DesignerState :=
  if s.historyIndex < s.history.length - 1 then
    { s with historyIndex := s.historyIndex + 1
             layouts := s.history.getD (s.historyIndex + 1) ([], [])
             selectedIds := [] }
  else s

/-- `switchCanvas(idx)`: change the active template and clear the selection. -/
def switchCanvas (s : DesignerState) (idx : Fin 2) : DesignerState :=
  { s with activeCanvasIdx := idx, selectedIds := [] }

/-- `loadLayout(layout)`: deep-copy the saved placeholders into the active
template, recording history.  The deep copy is value-identity here. -/
def loadLayout (s : DesignerState) (slots : List Placeholder) : DesignerState :=
  updateCurrentPlaceholders s (fun _ => slots) true

/-- `addPlaceholder()`: append a default-centered slot (30% wide, height
computed against the canvas aspect) and select it.  `Date.now()` is passed
in as `newId`. -/
def addPlaceholder (s : DesignerState) (newId : Int) : DesignerState :=
  let w : ℚ := 3/10
  let h : ℚ := 3/10 * (s.canvasW / s.canvasH)
  let p : Placeholder :=
    { id := newId, x := 1/2 - w/2, y := 1/2 - h/2, width := w, height := h
      aspectRatio := none, fit := .cover }
  let s' := updateCurrentPlaceholders s (fun prev => prev ++ [p]) true
  { s' with selectedIds := [newId] }

/-- The preset kinds accepted by `addPreset`. -/
inductive PresetKind where
  | oneByOne
  | twoByTwo
  | oneOverTwo
  | strip3
  | strip4
  | stripHorizontal
deriving DecidableEq, Repr

/-- The slot list built by `addPreset(type)` from margin 5% and gap 3%.
`Date.now()` is passed in as `baseId`.  The `2x2` double loop over rows and
columns is unrolled in its iteration order (r0c0, r0c1, r1c0, r1c1). -/
def presetSlots (k : PresetKind) (baseId : Int) : List Placeholder :=
  let margin : ℚ := 5/100
  let gap : ℚ := 3/100
  let availW : ℚ := 1 - margin * 2
  let availH : ℚ := 1 - margin * 2
  match k with
  | .oneByOne =>
      [⟨baseId, margin, margin, availW, availH, none, .cover⟩]
  | .twoByTwo =>
      let w := (availW - gap) / 2
      let h := (availH - gap) / 2
      [⟨baseId, margin, margin, w, h, none, .cover⟩,
       ⟨baseId + 1, margin + (w + gap), margin, w, h, none, .cover⟩,
       ⟨baseId + 2, margin, margin + (h + gap), w, h, none, .cover⟩,
       ⟨baseId + 3, margin + (w + gap), margin + (h + gap), w, h, none, .cover⟩]
  | .oneOverTwo =>
      let topH := (availH - gap) * (55/100)
      let botH := (availH - gap) * (45/100)
      let botW := (availW - gap) / 2
      [⟨baseId, margin, margin, availW, topH, none, .cover⟩,
       ⟨baseId + 1, margin, margin + topH + gap, botW, botH, none, .cover⟩,
       ⟨baseId + 2, margin + botW + gap, margin + topH + gap, botW, botH, none, .cover⟩]
  | .strip3 =>
      let h := (availH - gap * 2) / 3
      (List.range 3).map fun i =>
        ⟨baseId + i, margin, margin + i * (h + gap), availW, h, none, .cover⟩
  | .strip4 =>
      let h := (availH - gap * 3) / 4
      (List.range 4).map fun i =>
        ⟨baseId + i, margin, margin + i * (h + gap), availW, h, none, .cover⟩
  | .stripHorizontal =>
      let w := (availW - gap * 2) / 3
      (List.range 3).map fun i =>
        ⟨baseId + i, margin + i * (w + gap), margin, w, availH, none, .cover⟩

/-- `addPreset(type)`: replace the active layout with the preset slots and
clear the selection. -/
def addPreset (s : DesignerState) (k : PresetKind) (baseId : Int) : DesignerState :=
  let s' := updateCurrentPlaceholders s (fun _ => presetSlots k baseId) true
  { s' with selectedIds := [] }

/-- `removeSelected()`: when something is selected, filter out the selected
slots and clear the selection. -/
def removeSelected (s : DesignerState) : DesignerState :=
  if s.selectedIds.length > 0 then
    let s' := updateCurrentPlaceholders s
      (fun prev => prev.filter (fun p => !(s.selectedIds.contains p.id))) true
    { s' with selectedIds := [] }
  else s

/-- `copySelected()`: copy the selected slots of the active layout to the
clipboard when nonempty. -/
def copySelected (s : DesignerState) : DesignerState :=
  let sel := s.active.filter (fun p => s.selectedIds.contains p.id)
  if sel.length > 0 then { s with clipboard := sel } else s

/-- `paste()`: clone the clipboard with fresh ids (`Date.now() + i`, passed
in via `baseId`) at a 2% offset clamped to stay within `1 − size`, append,
and select the clones. -/
def pasteOp (s : DesignerState) (baseId : Int) : DesignerState :=
  if s.clipboard.length = 0 then s
  else
    let offset : ℚ := 2/100
    let newItems := s.clipboard.mapIdx fun i p =>
      { p with id := baseId + i
               x := jsMin (1 - p.width) (p.x + offset)
               y := jsMin (1 - p.height) (p.y + offset) }
    let s' := updateCurrentPlaceholders s (fun prev => prev ++ newItems) true
    { s' with selectedIds := newItems.map (·.id) }

/-- `nudgeSelected(dxPx, dyPx)`: move the selected slots by a pixel delta
converted to normalized units, clamping each coordinate into
`[0, 1 − size]`. -/
def nudgeSelected (s : DesignerState) (dxPx dyPx : ℚ) : DesignerState :=
  let dx := dxPx / s.canvasW
  let dy := dyPx / s.canvasH
  updateCurrentPlaceholders s
    (fun prev => prev.map fun p =>
      if s.selectedIds.contains p.id then
        { p with x := jsMax 0 (jsMin (1 - p.width) (p.x + dx))
                 y := jsMax 0 (jsMin (1 - p.height) (p.y + dy)) }
      else p) true

/-- Alignment directions of `alignSelected`. -/
inductive AlignDir where
  | left
  | center
  | right
  | top
  | middle
  | bottom
deriving DecidableEq, Repr

/-- The per-placeholder position rewrite of `alignSelected`: against the
canvas when exactly one item is selected, against the selection bounds
otherwise. -/
def alignPos (d : AlignDir) (single : Bool) (minX maxX minY maxY cX cY : ℚ)
    (p : Placeholder) : Placeholder :=
  if single then
    match d with
    | .left => { p with x := 0 }
    | .center => { p with x := 1/2 - p.width / 2 }
    | .right => { p with x := 1 - p.width }
    | .top => { p with y := 0 }
    | .middle => { p with y := 1/2 - p.height / 2 }
    | .bottom => { p with y := 1 - p.height }
  else
    match d with
    | .left => { p with x := minX }
    | .center => { p with x := cX - p.width / 2 }
    | .right => { p with x := maxX - p.width }
    | .top => { p with y := minY }
    | .middle => { p with y := cY - p.height / 2 }
    | .bottom => { p with y := maxY - p.height }

/-- The bounds-and-rewrite body of `alignSelected(alignment)` (the code past
its guards): compute the selection bounds, then rewrite each selected slot
against the canvas (single selection) or the bounds (multi selection). -/
def alignApplied (sel : List Int) (d : AlignDir) (ps : List Placeholder) :
    List Placeholder :=
  let selectedItems := ps.filter (fun p => sel.contains p.id)
  let minX := listMin (selectedItems.map (·.x))
  let maxX := listMax (selectedItems.map fun p => p.x + p.width)
  let minY := listMin (selectedItems.map (·.y))
  let maxY := listMax (selectedItems.map fun p => p.y + p.height)
  let cX := (minX + maxX) / 2
  let cY := (minY + maxY) / 2
  let single := selectedItems.length = 1
  ps.map fun p =>
    if sel.contains p.id then alignPos d single minX maxX minY maxY cX cY p
    else p

/-- The pure list transformation of `alignSelected(alignment)`: guard on the
selection, then apply the bounds-and-rewrite body. -/
def alignList (sel : List Int) (d : AlignDir) (ps : List Placeholder) :
    List Placeholder :=
  if sel.length = 0 then ps
  else if (ps.filter (fun p => sel.contains p.id)).length = 0 then ps
  else alignApplied sel d ps

/-- `alignSelected(alignment)` as a state transformer; when the guards pass
the rewrite goes through `updateCurrentPlaceholders` with history recording
(the updater maps the array, so a fresh array is always produced and history
is pushed even when no geometry changed). -/
def alignSelected (s : DesignerState) (d : AlignDir) : DesignerState :=
  if s.selectedIds.length = 0 then s
  else if (s.active.filter (fun p => s.selectedIds.contains p.id)).length = 0 then s
  else updateCurrentPlaceholders s (alignList s.selectedIds d) true

/-- Distribution axes of `distributeSelected`. -/
inductive Axis where
  | horizontal
  | vertical
deriving DecidableEq, Repr

/-- The cumulative position assignment of `distributeSelected` over the inner
items: starting at `currentX`, each item is placed and the cursor advances by
its extent plus the gap.  Returns the `updates` association of id to new
leading edge. -/
def innerShiftX (gap : ℚ) : ℚ → List Placeholder → List (Int × ℚ)
  | _, [] => []
  | cx, p :: rest => (p.id, cx) :: innerShiftX gap (cx + p.width + gap) rest

/-- Vertical counterpart of `innerShiftX` (advances by heights). -/
def innerShiftY (gap : ℚ) : ℚ → List Placeholder → List (Int × ℚ)
  | _, [] => []
  | cy, p :: rest => (p.id, cy) :: innerShiftY gap (cy + p.height + gap) rest

/-- The selected items of `distributeSelected`, sorted ascending by `x`
(JS `sort` with the numeric comparator `a.x - b.x` is stable, hence
`mergeSort`). -/
def sortedSelX (sel : List Int) (ps : List Placeholder) : List Placeholder :=
  (ps.filter (fun p => sel.contains p.id)).mergeSort (fun a b => a.x ≤ b.x)

/-- The selected items of `distributeSelected`, sorted ascending by `y`. -/
def sortedSelY (sel : List Int) (ps : List Placeholder) : List Placeholder :=
  (ps.filter (fun p => sel.contains p.id)).mergeSort (fun a b => a.y ≤ b.y)

/-- The equal gap of the horizontal distribution:
`(endEdge − startEdge − innerWidths) / (count − 1)` computed on the sorted
selection (`0` on the unreachable empty list). -/
def gapX (items : List Placeholder) : ℚ :=
  match items with
  | [] => 0
  | first :: rest =>
    ((rest.getLastD first).x - (first.x + first.width) -
        rest.dropLast.foldl (fun sum p => sum + p.width) 0) /
      ((first :: rest).length - 1 : ℚ)

/-- The equal gap of the vertical distribution. -/
def gapY (items : List Placeholder) : ℚ :=
  match items with
  | [] => 0
  | first :: rest =>
    ((rest.getLastD first).y - (first.y + first.height) -
        rest.dropLast.foldl (fun sum p => sum + p.height) 0) /
      ((first :: rest).length - 1 : ℚ)

/-- Apply the `updates` map of the horizontal distribution to one
placeholder (`updates.has(p.id) ? { ...p, x: updates.get(p.id)! } : p`). -/
def applyUpdX (updates : List (Int × ℚ)) (p : Placeholder) : Placeholder :=
  match updates.lookup p.id with
  | some nx => { p with x := nx }
  | none => p

/-- Apply the `updates` map of the vertical distribution to one placeholder. -/
def applyUpdY (updates : List (Int × ℚ)) (p : Placeholder) : Placeholder :=
  match updates.lookup p.id with
  | some ny => { p with y := ny }
  | none => p

/-- The inner items of the distribution: the sorted selection without its
first and last elements (`slice(1, -1)`). -/
def innerX (sel : List Int) (ps : List Placeholder) : List Placeholder :=
  match sortedSelX sel ps with
  | [] => []
  | _ :: rest => rest.dropLast

/-- Vertical counterpart of `innerX`. -/
def innerY (sel : List Int) (ps : List Placeholder) : List Placeholder :=
  match sortedSelY sel ps with
  | [] => []
  | _ :: rest => rest.dropLast

/-- The pure list transformation of `distributeSelected('horizontal')`:
requires at least three selected ids, sorts the selected items by `x`, keeps
the outer two, and re-places the inner items cumulatively starting at
`startEdge + gap`. -/
def distributeListX (sel : List Int) (ps : List Placeholder) : List Placeholder :=
  if sel.length < 3 then ps
  else
    match sortedSelX sel ps with
    | [] => ps
    | first :: rest =>
      ps.map (applyUpdX (innerShiftX (gapX (first :: rest))
        (first.x + first.width + gapX (first :: rest)) rest.dropLast))

/-- The pure list transformation of `distributeSelected('vertical')`. -/
def distributeListY (sel : List Int) (ps : List Placeholder) : List Placeholder :=
  if sel.length < 3 then ps
  else
    match sortedSelY sel ps with
    | [] => ps
    | first :: rest =>
      ps.map (applyUpdY (innerShiftY (gapY (first :: rest))
        (first.y + first.height + gapY (first :: rest)) rest.dropLast))

/-- The sorted selection viewed through the horizontal distribution's update
map: the final geometry of the distributed items in sorted order. -/
def distributeAssignedX (sel : List Int) (ps : List Placeholder) : List Placeholder :=
  match sortedSelX sel ps with
  | [] => []
  | first :: rest =>
    (first :: rest).map (applyUpdX (innerShiftX (gapX (first :: rest))
      (first.x + first.width + gapX (first :: rest)) rest.dropLast))

/-- Vertical counterpart of `distributeAssignedX`. -/
def distributeAssignedY (sel : List Int) (ps : List Placeholder) : List Placeholder :=
  match sortedSelY sel ps with
  | [] => []
  | first :: rest =>
    (first :: rest).map (applyUpdY (innerShiftY (gapY (first :: rest))
      (first.y + first.height + gapY (first :: rest)) rest.dropLast))

/-- `distributeSelected(axis)` as a state transformer: the `< 3` guard
returns without touching the model or the history; otherwise the rewrite
records history. -/
def distributeSelected (s : DesignerState) (ax : Axis) : DesignerState :=
  if s.selectedIds.length < 3 then s
  else
    updateCurrentPlaceholders s
      (match ax with
       | .horizontal => distributeListX s.selectedIds
       | .vertical => distributeListY s.selectedIds) true

/-- Resize handles: four corners plus four edge midpoints.  The source keys
them by strings `'tl' | 'tr' | 'br' | 'bl' | 't' | 'r' | 'b' | 'l'` and tests
them with `handle.includes(c)`. -/
inductive Handle where
  | tl
  | tr
  | br
  | bl
  | t
  | r
  | b
  | l
deriving DecidableEq, Repr

/-- `handle.includes('l')`. -/
def Handle.hasL : Handle → Bool
  | .tl | .bl | .l => true
  | _ => false

/-- `handle.includes('r')`. -/
def Handle.hasR : Handle → Bool
  | .tr | .br | .r => true
  | _ => false

/-- `handle.includes('t')`. -/
def Handle.hasT : Handle → Bool
  | .tl | .tr | .t => true
  | _ => false

/-- `handle.includes('b')`. -/
def Handle.hasB : Handle → Bool
  | .br | .bl | .b => true
  | _ => false

/-- A transient snap guide: axis and normalized position. -/
structure SnapGuide where
  vertical : Bool
  pos : ℚ
deriving DecidableEq, Repr

/-- The running state of one axis of the snap search: the current minimum
deviation (`minDiff`, initialized to the threshold), the best corrected
delta (`bestDx`/`bestDy`, initialized to the raw delta), and the snapped
line if any. -/
structure SnapState where
  minDiff : ℚ
  bestD : ℚ
  snapped : Option ℚ
deriving DecidableEq, Repr

/-- One snap test of the moving branch: the test point `anchor + dx` against
`line`; on a strict improvement the corrected delta becomes `line − anchor`
so that the test point lands exactly on the line. -/
def snapCand (dx : ℚ) (st : SnapState) (line anchor : ℚ) : SnapState :=
  if jsAbs (anchor + dx - line) < st.minDiff then
    ⟨jsAbs (anchor + dx - line), line - anchor, some line⟩
  else st

/-- One line's worth of the moving-branch snap search: check the left edge,
the right edge, then the center of the selection's bounding box. -/
def moveSnapStep (dx minX maxX : ℚ) (st : SnapState) (line : ℚ) : SnapState :=
  snapCand dx (snapCand dx (snapCand dx st line minX) line maxX) line
    ((minX + maxX) / 2)

/-- The whole moving-branch snap search on one axis. -/
def moveSnapAxis (dx minX maxX thresh : ℚ) (lines : List ℚ) : SnapState :=
  lines.foldl (moveSnapStep dx minX maxX) ⟨thresh, dx, none⟩

/-- The vertical candidate lines of the drag: canvas lines 0, 0.5, 1 and the
left edge, right edge and center of every non-selected placeholder of the
gesture-start snapshot. -/
def vLinesOf (sel : List Int) (initials : List Placeholder) : List ℚ :=
  [0, 1/2, 1] ++ (initials.filter (fun p => !(sel.contains p.id))).flatMap
    (fun p => [p.x, p.x + p.width, p.x + p.width / 2])

/-- The horizontal candidate lines of the drag. -/
def hLinesOf (sel : List Int) (initials : List Placeholder) : List ℚ :=
  [0, 1/2, 1] ++ (initials.filter (fun p => !(sel.contains p.id))).flatMap
    (fun p => [p.y, p.y + p.height, p.y + p.height / 2])

/-- The moving branch of `handleMouseMove`: snap the raw delta on both axes
against the candidate lines, emit at most one guide per axis, and move every
selected placeholder by the corrected delta from its gesture-start
geometry.  Returns the new placeholder list and the guides. -/
def moveFrame (sel : List Int) (initials : List Placeholder) (cw ch dx dy : ℚ)
    (ps : List Placeholder) : List Placeholder × List SnapGuide :=
  let selectedInitials := initials.filter (fun p => sel.contains p.id)
  if selectedInitials.length = 0 then (ps, [])
  else
    let minX := listMin (selectedInitials.map (·.x))
    let maxX := listMax (selectedInitials.map fun p => p.x + p.width)
    let minY := listMin (selectedInitials.map (·.y))
    let maxY := listMax (selectedInitials.map fun p => p.y + p.height)
    let stX := moveSnapAxis dx minX maxX (SNAP_THRESHOLD_PX / cw) (vLinesOf sel initials)
    let stY := moveSnapAxis dy minY maxY (SNAP_THRESHOLD_PX / ch) (hLinesOf sel initials)
    let newGuides :=
      (match stX.snapped with
       | some line => [⟨true, line⟩]
       | none => []) ++
      (match stY.snapped with
       | some line => [⟨false, line⟩]
       | none => [])
    let result := ps.map fun p =>
      if !(sel.contains p.id) then p
      else
        match initials.find? (fun ip => ip.id = p.id) with
        | none => p
        | some init => { p with x := init.x + stX.bestD, y := init.y + stY.bestD }
    (result, newGuides)

/-- The center snap test of the resizing branch: the test point is
`center + d/2` and the corrected delta is `2·(line − center)`. -/
def snapCandCenter (d : ℚ) (st : SnapState) (line c : ℚ) : SnapState :=
  if jsAbs (c + d / 2 - line) < st.minDiff then
    ⟨jsAbs (c + d / 2 - line), 2 * (line - c), some line⟩
  else st

/-- One line's worth of the resizing-branch x snap: left edge when the
handle includes `l`, right edge when it includes `r`, then the center. -/
def resizeSnapStepX (h : Handle) (dx : ℚ) (init : Placeholder)
    (st : SnapState) (line : ℚ) : SnapState :=
  let st := if h.hasL then snapCand dx st line init.x else st
  let st := if h.hasR then snapCand dx st line (init.x + init.width) else st
  snapCandCenter dx st line (init.x + init.width / 2)

/-- One line's worth of the resizing-branch y snap. -/
def resizeSnapStepY (h : Handle) (dy : ℚ) (init : Placeholder)
    (st : SnapState) (line : ℚ) : SnapState :=
  let st := if h.hasT then snapCand dy st line init.y else st
  let st := if h.hasB then snapCand dy st line (init.y + init.height) else st
  snapCandCenter dy st line (init.y + init.height / 2)

/-- The x-axis snap search of the resizing branch, run only when the handle
includes `l` or `r`. -/
def resizeSnapX (h : Handle) (dx thresh : ℚ) (init : Placeholder)
    (lines : List ℚ) : SnapState :=
  if h.hasL || h.hasR then
    lines.foldl (resizeSnapStepX h dx init) ⟨thresh, dx, none⟩
  else ⟨thresh, dx, none⟩

/-- The y-axis snap search of the resizing branch, run only when the handle
includes `t` or `b`. -/
def resizeSnapY (h : Handle) (dy thresh : ℚ) (init : Placeholder)
    (lines : List ℚ) : SnapState :=
  if h.hasT || h.hasB then
    lines.foldl (resizeSnapStepY h dy init) ⟨thresh, dy, none⟩
  else ⟨thresh, dy, none⟩

/-- The raw resize computation with the (snapped) delta: clamp each driven
dimension to `MIN_SLOT_SIZE`, pin the opposite edge for top/left handles,
then apply the aspect-ratio lock — a pure `t`/`b` handle drives a recomputed
width, every other handle drives a recomputed height, re-anchoring the
bottom edge when the handle includes `t`. -/
def resizeGeom (h : Handle) (init : Placeholder) (dx dy cw ch : ℚ) :
    Placeholder :=
  let newX := if h.hasL then init.x + jsMin (init.width - MIN_SLOT_SIZE) dx else init.x
  let newW :=
    if h.hasR then jsMax MIN_SLOT_SIZE (init.width + dx)
    else if h.hasL then init.width - jsMin (init.width - MIN_SLOT_SIZE) dx
    else init.width
  let newY := if h.hasT then init.y + jsMin (init.height - MIN_SLOT_SIZE) dy else init.y
  let newH :=
    if h.hasB then jsMax MIN_SLOT_SIZE (init.height + dy)
    else if h.hasT then init.height - jsMin (init.height - MIN_SLOT_SIZE) dy
    else init.height
  match init.aspectRatio with
  | none => { init with x := newX, y := newY, width := newW, height := newH }
  | some (rw, rh) =>
    let targetRatio := rw / rh
    if h = .t ∨ h = .b then
      { init with x := newX, y := newY
                  width := newH * targetRatio * ch / cw, height := newH }
    else
      let newH2 := newW * cw / (targetRatio * ch)
      let newY2 := if h.hasT then init.y + init.height - newH2 else newY
      { init with x := newX, y := newY2, width := newW, height := newH2 }

/-- The resizing branch of `handleMouseMove` for the single selected
placeholder: snap the delta per axis, then run the raw resize computation.
Returns the resized placeholder and the guides. -/
def resizeFrame (h : Handle) (init : Placeholder) (cw ch dx dy : ℚ)
    (vLines hLines : List ℚ) : Placeholder × List SnapGuide :=
  let stX := resizeSnapX h dx (SNAP_THRESHOLD_PX / cw) init vLines
  let stY := resizeSnapY h dy (SNAP_THRESHOLD_PX / ch) init hLines
  let newGuides :=
    (match stX.snapped with
     | some line => [⟨true, line⟩]
     | none => []) ++
    (match stY.snapped with
     | some line => [⟨false, line⟩]
     | none => [])
  (resizeGeom h init stX.bestD stY.bestD cw ch, newGuides)

/-- A mouse-move frame of an in-progress move gesture: the model is written
through `updateCurrentPlaceholders` with `record = false` (history is not
pushed on ephemeral drag frames). -/
def dragMoveFrame (s : DesignerState) (initials : List Placeholder)
    (dx dy : ℚ) : DesignerState :=
  updateCurrentPlaceholders s
    (fun prev => (moveFrame s.selectedIds initials s.canvasW s.canvasH dx dy prev).1)
    false

/-- Pointer release of a gesture (`handleMouseUp`): the drag already wrote
the final geometry frame by frame; on release the result is compared by
value against the gesture-start snapshot and history is recorded only when
it differs.  `upd` is the net effect of the gesture on the active layout. -/
def dragRelease (s : DesignerState) (upd : List Placeholder → List Placeholder) :
    DesignerState :=
  let nextLayout := upd s.active
  let newLayouts := s.layouts.set s.activeCanvasIdx nextLayout
  let s' := { s with layouts := newLayouts }
  if nextLayout = s.active then s' else recordHistory s' newLayouts

/-- Decoded pixel dimensions of a frame image. -/
structure ImageDims where
  w : ℚ
  h : ℚ
deriving DecidableEq, Repr

/-- The frame image reference handed to `onTemplateConfirm`: either one of
the two source frames, or the side-by-side merged canvas (whose pixel
content is drawn by canvas compositing and is opaque to this model). -/
inductive FrameRef where
  | src (url : String)
  | mergedCanvas (dimsA dimsB : ImageDims)
deriving DecidableEq, Repr

/-- The observable outcome of `handleConfirm`: a user-visible `alert`
message with no confirmation, or exactly one `onTemplateConfirm` invocation
with the final placeholders, the aspect ratio (kept as the width/height pair
the source interpolates into the ratio string), and an optional frame. -/
inductive ConfirmOutcome where
  | alerted (msg : String)
  | confirmed (ps : List Placeholder) (ratio : ℚ × ℚ) (frame : Option FrameRef)
deriving DecidableEq, Repr

/-- The placeholder remap of the merge branch: the merged canvas is
`A.width + B.width` wide and `max` of the heights tall; template A's slots
are rescaled by A's own image dimensions into merged fractions, template B's
are additionally offset by A's width and get their ids offset by 10000. -/
def mergePlaceholders (la lb : List Placeholder) (dimsA dimsB : ImageDims) :
    List Placeholder :=
  la.map (fun p =>
    { p with x := p.x * dimsA.w / (dimsA.w + dimsB.w)
             y := p.y * dimsA.h / jsMax dimsA.h dimsB.h
             width := p.width * dimsA.w / (dimsA.w + dimsB.w)
             height := p.height * dimsA.h / jsMax dimsA.h dimsB.h }) ++
  lb.map (fun p =>
    { p with id := p.id + 10000
             x := (dimsA.w + p.x * dimsB.w) / (dimsA.w + dimsB.w)
             y := p.y * dimsB.h / jsMax dimsA.h dimsB.h
             width := p.width * dimsB.w / (dimsA.w + dimsB.w)
             height := p.height * dimsB.h / jsMax dimsA.h dimsB.h })

/-- `handleConfirm()`: dispatch on the export flags.  Both flags off alerts;
A-only confirms A's layout with the current canvas ratio and frame; B-only
decodes B's image for the ratio; both flags on require both frames (else a
user-visible rejection) and produce the merged canvas with remapped
placeholders.  The handler performs no state update in any branch, so the
state is returned untouched alongside the outcome.  `dimsA`/`dimsB` are the
decoded pixel dimensions of the two frame images. -/
def handleConfirm (s : DesignerState) (dimsA dimsB : ImageDims) :
    DesignerState × ConfirmOutcome :=
  let useA := s.exportSelection.1
  let useB := s.exportSelection.2
  if !useA && !useB then
    (s, .alerted "Please select at least one template to use.")
  else if useA && !useB then
    (s, .confirmed s.layouts.1 (s.canvasW, s.canvasH) (s.frames.1.map .src))
  else if !useA && useB then
    (s, .confirmed s.layouts.2 (dimsB.w, dimsB.h) (s.frames.2.map .src))
  else
    match s.frames.1, s.frames.2 with
    | some _, some _ =>
      (s, .confirmed (mergePlaceholders s.layouts.1 s.layouts.2 dimsA dimsB)
            (dimsA.w + dimsB.w, jsMax dimsA.h dimsB.h)
            (some (.mergedCanvas dimsA dimsB)))
    | _, _ => (s, .alerted "Both templates must have frames to merge.")

/-- The embedded-mode emission effect, keyed on the derived `placeholders`
value: it fires when the active list changed since the previous render
(the dependency comparison; every mutation builds a fresh array, modelled
here as value change) and the guard `placeholders.length > 0` passes. -/
def emitAfter (embedded : Bool) (prevActive newActive : List Placeholder) :
    Option (List Placeholder) :=
  if embedded = true ∧ newActive ≠ prevActive ∧ newActive.length > 0 then
    some newActive
  else none

/-- The structural operations of the designer session, each calling
`recordHistory` through its handler exactly as the source does.  The
pointer-gesture release carries the net effect of the gesture on the active
layout as a function. -/
inductive StructOp where
  | addSlot (newId : Int)
  | preset (k : PresetKind) (baseId : Int)
  | removeSel
  | alignOp (d : AlignDir)
  | distributeOp (ax : Axis)
  | pasteIt (baseId : Int)
  | gestureRelease (upd : List Placeholder → List Placeholder)
  | loadSaved (slots : List Placeholder)

/-- Apply one structural operation. -/
def applyStructOp (s : DesignerState) : StructOp → DesignerState
  | .addSlot newId => addPlaceholder s newId
  | .preset k baseId => addPreset s k baseId
  | .removeSel => removeSelected s
  | .alignOp d => alignSelected s d
  | .distributeOp ax => distributeSelected s ax
  | .pasteIt baseId => pasteOp s baseId
  | .gestureRelease upd => dragRelease s upd
  | .loadSaved slots => loadLayout s slots

/-- Apply a sequence of structural operations left to right. -/
def applyStructOps (s : DesignerState) : List StructOp → DesignerState
  | [] => s
  | op :: ops => applyStructOps (applyStructOp s op) ops

/-- Iterated `undo`. -/
def undoN : Nat → DesignerState → DesignerState
  | 0, s => s
  | n + 1, s => undoN n (undo s)

/-- Iterated `redo`. -/
def redoN : Nat → DesignerState → DesignerState
  | 0, s => s
  | n + 1, s => redoN n (redo s)

/-- Every session event that can touch the model or the history: the
structural operations plus undo, redo, canvas switching, selection changes,
copy, nudge and the ephemeral drag frames. -/
inductive SessionEvent where
  | struct (op : StructOp)
  | undoEv
  | redoEv
  | switchEv (idx : Fin 2)
  | selectEv (ids : List Int)
  | copyEv
  | nudgeEv (dxPx dyPx : ℚ)
  | dragFrameEv (initials : List Placeholder) (dx dy : ℚ)

/-- Apply one session event. -/
def applyEvent (s : DesignerState) : SessionEvent → DesignerState
  | .struct op => applyStructOp s op
  | .undoEv => undo s
  | .redoEv => redo s
  | .switchEv idx => switchCanvas s idx
  | .selectEv ids => { s with selectedIds := ids }
  | .copyEv => copySelected s
  | .nudgeEv dxPx dyPx => nudgeSelected s dxPx dyPx
  | .dragFrameEv initials dx dy => dragMoveFrame s initials dx dy

/-- Apply a sequence of session events left to right. -/
def applyEvents (s : DesignerState) : List SessionEvent → DesignerState
  | [] => s
  | e :: es => applyEvents (applyEvent s e) es

/-! ### Basic lemmas about the state helpers -/

theorem LayoutPair.get_set_self (l : LayoutPair) (i : Fin 2) (v : List Placeholder) :
    (l.set i v).get i = v := by
  by_cases h : i = 0 <;> simp [LayoutPair.get, LayoutPair.set, h]

theorem active_updateCurrentPlaceholders (s : DesignerState)
    (updater : List Placeholder → List Placeholder) (record : Bool) :
    (updateCurrentPlaceholders s updater record).active = updater s.active := by
  unfold updateCurrentPlaceholders DesignerState.active
  cases record <;> simp [recordHistory, LayoutPair.get_set_self]

/-! ### C3 — preset exactness -/

/-- C3 counterexample: `addPreset('2x2')` with margin 0.05 and gap 0.03 puts
the four slots at x/y offsets 1/20 = 0.05 and 103/200 = 0.515 (margin + cell
size + gap), not at the claimed 0.485 = 97/200 (which would be margin + cell
size without the gap). -/
theorem c3_preset_positions_counterexample :
    (presetSlots .twoByTwo 0).map (fun p => (p.x, p.y)) =
      [(1/20, 1/20), (103/200, 1/20), (1/20, 103/200), (103/200, 103/200)] ∧
    (103 : ℚ)/200 ≠ 97/200 ∧ (97/200 : ℚ) = 485/1000 := by
  refine ⟨by norm_num [presetSlots], by norm_num, by norm_num⟩

/-- C3 (amended): `addPreset('2x2')` replaces the active template's
placeholders with exactly 4 placeholders of width = height =
(1 − 0.10 − 0.03)/2 = 0.435 = 87/200, positioned at (0.05, 0.05),
(0.515, 0.05), (0.05, 0.515), (0.515, 0.515) — the second column and row
offset by margin + cell size + gap = 103/200. -/
theorem c3_preset2x2_exact (s : DesignerState) (baseId : Int) :
    (addPreset s .twoByTwo baseId).active =
      [⟨baseId, 1/20, 1/20, 87/200, 87/200, none, .cover⟩,
       ⟨baseId + 1, 103/200, 1/20, 87/200, 87/200, none, .cover⟩,
       ⟨baseId + 2, 1/20, 103/200, 87/200, 87/200, none, .cover⟩,
       ⟨baseId + 3, 103/200, 103/200, 87/200, 87/200, none, .cover⟩] ∧
    (addPreset s .twoByTwo baseId).active.length = 4 := by
  have h : (addPreset s .twoByTwo baseId).active = presetSlots .twoByTwo baseId := by
    simp [addPreset, updateCurrentPlaceholders, DesignerState.active, recordHistory,
      LayoutPair.get_set_self]
  rw [h]
  refine ⟨?_, by norm_num [presetSlots]⟩
  norm_num [presetSlots]

/-! ### C7 — merge remap correctness -/

/-- C7: when both templates are exported and merged, the merged canvas is
`A.width + B.width` wide and `max` of the heights tall; A's placeholders are
remapped by `newX = origX·A.width/mergedWidth` (and analogously on the other
three coordinates, with A's height for the vertical terms) keeping their
ids, and B's are remapped by `newX = (A.width + origX·B.width)/mergedWidth`
with ids offset by 10000. -/
theorem c7_merge_remap (la lb : List Placeholder) (dA dB : ImageDims) :
    (mergePlaceholders la lb dA dB).length = la.length + lb.length ∧
    (∀ (i : ℕ) (p : Placeholder), la[i]? = some p →
      (mergePlaceholders la lb dA dB)[i]? =
        some { p with x := p.x * dA.w / (dA.w + dB.w)
                      y := p.y * dA.h / jsMax dA.h dB.h
                      width := p.width * dA.w / (dA.w + dB.w)
                      height := p.height * dA.h / jsMax dA.h dB.h }) ∧
    (∀ (j : ℕ) (p : Placeholder), lb[j]? = some p →
      (mergePlaceholders la lb dA dB)[la.length + j]? =
        some { p with id := p.id + 10000
                      x := (dA.w + p.x * dB.w) / (dA.w + dB.w)
                      y := p.y * dB.h / jsMax dA.h dB.h
                      width := p.width * dB.w / (dA.w + dB.w)
                      height := p.height * dB.h / jsMax dA.h dB.h }) := by
  refine ⟨by simp [mergePlaceholders], ?_, ?_⟩
  · intro i p hp
    have hi : i < la.length := by
      by_contra hge
      rw [List.getElem?_eq_none (by omega)] at hp
      exact Option.noConfusion hp
    unfold mergePlaceholders
    rw [List.getElem?_append, if_pos (by simpa using hi), List.getElem?_map, hp]
    rfl
  · intro j p hp
    have hj : j < lb.length := by
      by_contra hge
      rw [List.getElem?_eq_none (by omega)] at hp
      exact Option.noConfusion hp
    unfold mergePlaceholders
    rw [List.getElem?_append, if_neg (by simp), List.getElem?_map]
    simp only [List.length_map]
    rw [show la.length + j - la.length = j by omega, hp]
    rfl

/-- C7 witness: the spec's example — Template A (image 100×200) with one
slot at (0.5, 0, 0.5, 1) id 1 and Template B (image 50×200) with one slot
at (0, 0, 1, 1) id 7 merge onto a 150×200 canvas with A's slot at
(1/3, 0, 1/3, 1) id 1 and B's at (2/3, 0, 1/3, 1) id 10007. -/
theorem c7_merge_remap_witness :
    (mergePlaceholders [⟨1, 1/2, 0, 1/2, 1, none, .cover⟩]
        [⟨7, 0, 0, 1, 1, none, .cover⟩] ⟨100, 200⟩ ⟨50, 200⟩)[0]? =
      some ⟨1, 1/3, 0, 1/3, 1, none, .cover⟩ ∧
    (mergePlaceholders [⟨1, 1/2, 0, 1/2, 1, none, .cover⟩]
        [⟨7, 0, 0, 1, 1, none, .cover⟩] ⟨100, 200⟩ ⟨50, 200⟩)[1]? =
      some ⟨10007, 2/3, 0, 1/3, 1, none, .cover⟩ ∧
    (100 : ℚ) + 50 = 150 ∧ jsMax (200 : ℚ) 200 = 200 := by
  have hA := (c7_merge_remap ([⟨1, 1/2, 0, 1/2, 1, none, .cover⟩] : List Placeholder)
    ([⟨7, 0, 0, 1, 1, none, .cover⟩] : List Placeholder) ⟨100, 200⟩ ⟨50, 200⟩).2.1 0
    ⟨1, 1/2, 0, 1/2, 1, none, .cover⟩ rfl
  have hB := (c7_merge_remap ([⟨1, 1/2, 0, 1/2, 1, none, .cover⟩] : List Placeholder)
    ([⟨7, 0, 0, 1, 1, none, .cover⟩] : List Placeholder) ⟨100, 200⟩ ⟨50, 200⟩).2.2 0
    ⟨7, 0, 0, 1, 1, none, .cover⟩ rfl
  refine ⟨?_, ?_, by norm_num, by norm_num [jsMax]⟩
  · rw [hA]; norm_num [jsMax]
  · have hlen : ([⟨1, 1/2, 0, 1/2, 1, none, .cover⟩] : List Placeholder).length + 0 = 1 := rfl
    rw [hlen] at hB
    rw [hB]; norm_num [jsMax]

/-! ### C9 — merge precondition guard -/

/-- C9: when both templates are flagged for export and at least one frame is
missing, `handleConfirm` alerts "Both templates must have frames to merge.",
does not invoke `onTemplateConfirm`, and leaves the state untouched. -/
theorem c9_merge_reject (s : DesignerState) (dA dB : ImageDims)
    (hsel : s.exportSelection = (true, true))
    (hmiss : s.frames.1 = none ∨ s.frames.2 = none) :
    handleConfirm s dA dB = (s, .alerted "Both templates must have frames to merge.") ∧
    ∀ ps ratio fr, (handleConfirm s dA dB).2 ≠ .confirmed ps ratio fr := by
  have h : handleConfirm s dA dB = (s, .alerted "Both templates must have frames to merge.") := by
    unfold handleConfirm
    rw [hsel]
    rcases hmiss with hm | hm <;>
      rcases h1 : s.frames.1 with _ | f1 <;> rcases h2 : s.frames.2 with _ | f2 <;>
        simp_all
  exact ⟨h, by intro ps ratio fr; rw [h]; exact fun hc => ConfirmOutcome.noConfusion hc⟩

/-- C9 witness: a concrete state with both export flags set and frame B
missing is rejected with the alert and no confirmation. -/
theorem c9_merge_reject_witness :
    handleConfirm
        { initState with exportSelection := (true, true)
                         frames := (some "frameA", none) } ⟨100, 200⟩ ⟨50, 200⟩ =
      ({ initState with exportSelection := (true, true)
                        frames := (some "frameA", none) },
       .alerted "Both templates must have frames to merge.") :=
  (c9_merge_reject _ ⟨100, 200⟩ ⟨50, 200⟩ rfl (Or.inr rfl)).1

/-! ### C2 — minimum size and range invariants -/

theorem resizeGeom_height_min_tb (h : Handle) (init : Placeholder) (dx dy cw ch : ℚ)
    (hh : MIN_SLOT_SIZE ≤ init.height) (ht : h = .t ∨ h = .b) :
    MIN_SLOT_SIZE ≤ (resizeGeom h init dx dy cw ch).height := by
  have hmin : min (init.height - MIN_SLOT_SIZE) dy ≤ init.height - MIN_SLOT_SIZE :=
    min_le_left _ _
  have hmax : MIN_SLOT_SIZE ≤ max MIN_SLOT_SIZE (init.height + dy) := le_max_left _ _
  rcases ht with rfl | rfl <;>
    rcases har : init.aspectRatio with _ | ⟨r1, r2⟩ <;>
      simp [resizeGeom, har, Handle.hasT, Handle.hasB, Handle.hasL, Handle.hasR,
        jsMin_eq, jsMax_eq] <;>
      linarith

theorem resizeGeom_width_min_ntb (h : Handle) (init : Placeholder) (dx dy cw ch : ℚ)
    (hw : MIN_SLOT_SIZE ≤ init.width) (hnt : ¬(h = .t ∨ h = .b)) :
    MIN_SLOT_SIZE ≤ (resizeGeom h init dx dy cw ch).width := by
  have hmin : min (init.width - MIN_SLOT_SIZE) dx ≤ init.width - MIN_SLOT_SIZE :=
    min_le_left _ _
  have hmax : MIN_SLOT_SIZE ≤ max MIN_SLOT_SIZE (init.width + dx) := le_max_left _ _
  cases h <;>
    first
    | exact absurd (Or.inl rfl) hnt
    | exact absurd (Or.inr rfl) hnt
    | (rcases har : init.aspectRatio with _ | ⟨r1, r2⟩ <;>
        simp [resizeGeom, har, Handle.hasT, Handle.hasB, Handle.hasL, Handle.hasR,
          jsMin_eq, jsMax_eq] <;>
        linarith)

theorem resizeGeom_min_noAspect (h : Handle) (init : Placeholder) (dx dy cw ch : ℚ)
    (hw : MIN_SLOT_SIZE ≤ init.width) (hh : MIN_SLOT_SIZE ≤ init.height)
    (har : init.aspectRatio = none) :
    MIN_SLOT_SIZE ≤ (resizeGeom h init dx dy cw ch).width ∧
    MIN_SLOT_SIZE ≤ (resizeGeom h init dx dy cw ch).height := by
  have hminW : min (init.width - MIN_SLOT_SIZE) dx ≤ init.width - MIN_SLOT_SIZE :=
    min_le_left _ _
  have hminH : min (init.height - MIN_SLOT_SIZE) dy ≤ init.height - MIN_SLOT_SIZE :=
    min_le_left _ _
  have hmaxW : MIN_SLOT_SIZE ≤ max MIN_SLOT_SIZE (init.width + dx) := le_max_left _ _
  have hmaxH : MIN_SLOT_SIZE ≤ max MIN_SLOT_SIZE (init.height + dy) := le_max_left _ _
  cases h <;>
    simp [resizeGeom, har, Handle.hasT, Handle.hasB, Handle.hasL, Handle.hasR,
      jsMin_eq, jsMax_eq] <;>
    first
    | (constructor <;> linarith)
    | linarith

/-- C2 counterexample: a resize with handle `t` on a placeholder locked to
ratio 1:2 on an 800×600 canvas drives the recomputed width to 3/400 =
0.0075 < 0.02 (the min-size claim fails under an aspect-ratio lock), and a
move by a large negative delta leaves x = −4.9 (the moving branch never
clamps positions into [0, 1]). -/
theorem c2_min_size_counterexample :
    (resizeFrame .t ⟨1, 1/10, 1/10, 1/2, 1/2, some (1, 2), .cover⟩ 800 600 0 10
        [0, 1/2, 1] [0, 1/2, 1]).1.width = 3/400 ∧
    (3 : ℚ)/400 < MIN_SLOT_SIZE ∧
    (moveFrame [1] [⟨1, 1/10, 1/10, 1/5, 1/5, none, .cover⟩] 800 600 (-5) 0
        [⟨1, 1/10, 1/10, 1/5, 1/5, none, .cover⟩]).1.map Placeholder.x = [-49/10] ∧
    ¬ (0 : ℚ) ≤ -49/10 := by
  refine ⟨by with_unfolding_all decide, by with_unfolding_all decide,
    by with_unfolding_all decide, by with_unfolding_all decide⟩

/-- C2 (amended): resize keeps `width ≥ 0.02` and `height ≥ 0.02` for every
handle and delta whenever no aspect-ratio lock is set; with a lock only the
driven dimension (height for a pure `t`/`b` handle, width for every other
handle) is guaranteed to stay at least 0.02 — the derived dimension can drop
below it.  The nudge operation clamps positions into `[0, max 0 (1 − size)]`;
the move and resize branches apply their deltas without clamping positions
into [0, 1]. -/
theorem c2_min_size_amended (h : Handle) (init : Placeholder) (cw ch dx dy : ℚ)
    (vL hL : List ℚ)
    (hw : MIN_SLOT_SIZE ≤ init.width) (hh : MIN_SLOT_SIZE ≤ init.height) :
    (init.aspectRatio = none →
      MIN_SLOT_SIZE ≤ (resizeFrame h init cw ch dx dy vL hL).1.width ∧
      MIN_SLOT_SIZE ≤ (resizeFrame h init cw ch dx dy vL hL).1.height) ∧
    ((h = .t ∨ h = .b) →
      MIN_SLOT_SIZE ≤ (resizeFrame h init cw ch dx dy vL hL).1.height) ∧
    (¬(h = .t ∨ h = .b) →
      MIN_SLOT_SIZE ≤ (resizeFrame h init cw ch dx dy vL hL).1.width) ∧
    (∀ (s : DesignerState) (dxPx dyPx : ℚ) (q : Placeholder),
      q ∈ (nudgeSelected s dxPx dyPx).active → s.selectedIds.contains q.id →
        0 ≤ q.x ∧ q.x ≤ max 0 (1 - q.width) ∧ 0 ≤ q.y ∧ q.y ≤ max 0 (1 - q.height)) := by
  have hfr : (resizeFrame h init cw ch dx dy vL hL).1 =
      resizeGeom h init (resizeSnapX h dx (SNAP_THRESHOLD_PX / cw) init vL).bestD
        (resizeSnapY h dy (SNAP_THRESHOLD_PX / ch) init hL).bestD cw ch := rfl
  refine ⟨?_, ?_, ?_, ?_⟩
  · intro har
    rw [hfr]
    exact resizeGeom_min_noAspect h init _ _ cw ch hw hh har
  · intro ht
    rw [hfr]
    exact resizeGeom_height_min_tb h init _ _ cw ch hh ht
  · intro hnt
    rw [hfr]
    exact resizeGeom_width_min_ntb h init _ _ cw ch hw hnt
  · intro s dxPx dyPx q hq hsel
    simp only [nudgeSelected] at hq
    rw [active_updateCurrentPlaceholders] at hq
    obtain ⟨p, _, rfl⟩ := List.mem_map.1 hq
    by_cases hc : s.selectedIds.contains p.id
    · simp only [hc, if_true]
      refine ⟨le_max_left _ _, ?_, le_max_left _ _, ?_⟩ <;>
        exact max_le_max le_rfl (min_le_left _ _)
    · rw [if_neg hc] at hsel
      exact absurd hsel hc

/-! ### History invariants (used by C8 and C1) -/

/-- The history cursor is a valid index into the history sequence. -/
def cursorOk (s : DesignerState) : Prop := s.historyIndex < s.history.length

theorem cursorOk_recordHistory (s : DesignerState) (nl : LayoutPair)
    (h : cursorOk s) : cursorOk (recordHistory s nl) := by
  unfold cursorOk recordHistory at *
  simp only [List.length_append, List.length_take, List.length_cons, List.length_nil]
  omega

theorem cursorOk_layouts (s : DesignerState) (v : LayoutPair) (h : cursorOk s) :
    cursorOk { s with layouts := v } := h

theorem cursorOk_updateCurrentPlaceholders (s : DesignerState)
    (upd : List Placeholder → List Placeholder) (record : Bool) (h : cursorOk s) :
    cursorOk (updateCurrentPlaceholders s upd record) := by
  unfold updateCurrentPlaceholders
  cases record
  · exact h
  · exact cursorOk_recordHistory s _ h

theorem cursorOk_of_eq {s t : DesignerState} (hh : t.history = s.history)
    (hi : t.historyIndex = s.historyIndex) (h : cursorOk s) : cursorOk t := by
  unfold cursorOk at *
  rw [hh, hi]
  exact h

theorem cursorOk_applyStructOp (s : DesignerState) (op : StructOp) (h : cursorOk s) :
    cursorOk (applyStructOp s op) := by
  unfold cursorOk at h
  cases op with
  | addSlot newId =>
    show cursorOk (addPlaceholder s newId)
    unfold cursorOk
    simp [addPlaceholder, updateCurrentPlaceholders, recordHistory]
    omega
  | preset k baseId =>
    show cursorOk (addPreset s k baseId)
    unfold cursorOk
    simp [addPreset, updateCurrentPlaceholders, recordHistory]
    omega
  | removeSel =>
    show cursorOk (removeSelected s)
    unfold cursorOk
    unfold removeSelected
    split
    · simp [updateCurrentPlaceholders, recordHistory]
      omega
    · exact h
  | alignOp d =>
    show cursorOk (alignSelected s d)
    unfold cursorOk
    unfold alignSelected
    split
    · exact h
    · split
      · exact h
      · simp [updateCurrentPlaceholders, recordHistory]
        omega
  | distributeOp ax =>
    show cursorOk (distributeSelected s ax)
    unfold cursorOk
    unfold distributeSelected
    split
    · exact h
    · simp [updateCurrentPlaceholders, recordHistory]
      omega
  | pasteIt baseId =>
    show cursorOk (pasteOp s baseId)
    unfold cursorOk
    unfold pasteOp
    split
    · exact h
    · simp [updateCurrentPlaceholders, recordHistory]
      omega
  | gestureRelease upd =>
    show cursorOk (dragRelease s upd)
    unfold cursorOk
    unfold dragRelease
    dsimp only
    split
    · exact h
    · simp [recordHistory]
      omega
  | loadSaved slots =>
    show cursorOk (loadLayout s slots)
    unfold cursorOk
    simp [loadLayout, updateCurrentPlaceholders, recordHistory]
    omega

theorem cursorOk_applyEvent (s : DesignerState) (e : SessionEvent) (h : cursorOk s) :
    cursorOk (applyEvent s e) := by
  unfold cursorOk at h
  cases e with
  | struct op => exact cursorOk_applyStructOp s op h
  | undoEv =>
    show cursorOk (undo s)
    unfold cursorOk
    unfold undo
    split
    · simp only
      omega
    · exact h
  | redoEv =>
    show cursorOk (redo s)
    unfold cursorOk
    unfold redo
    split
    · simp only
      omega
    · exact h
  | switchEv idx =>
    show cursorOk (switchCanvas s idx)
    exact h
  | selectEv ids => exact h
  | copyEv =>
    show cursorOk (copySelected s)
    unfold cursorOk
    unfold copySelected
    dsimp only
    split
    · exact h
    · exact h
  | nudgeEv dxPx dyPx =>
    show cursorOk (nudgeSelected s dxPx dyPx)
    unfold cursorOk
    simp [nudgeSelected, updateCurrentPlaceholders, recordHistory]
    omega
  | dragFrameEv initials dx dy =>
    show cursorOk (dragMoveFrame s initials dx dy)
    unfold cursorOk
    simp [dragMoveFrame, updateCurrentPlaceholders]
    omega

theorem cursorOk_applyEvents (evs : List SessionEvent) :
    ∀ s : DesignerState, cursorOk s → cursorOk (applyEvents s evs) := by
  induction evs with
  | nil => exact fun s h => h
  | cons e es ih => exact fun s h => ih _ (cursorOk_applyEvent s e h)

/-! ### C8 — the record/cursor contract -/

/-- C8: `recordHistory` truncates the history to `cursor + 1` entries before
appending (discarding any redo branch) and advances the cursor by one; a
fresh session has exactly one entry (the empty pair) at cursor 0 and `undo`
is then a no-op; and after any sequence of session events the cursor is a
valid index into the history. -/
theorem c8_history_contract :
    (∀ (s : DesignerState) (snap : LayoutPair),
      (recordHistory s snap).history = s.history.take (s.historyIndex + 1) ++ [snap] ∧
      (recordHistory s snap).historyIndex = s.historyIndex + 1 ∧
      (cursorOk s →
        (recordHistory s snap).historyIndex = (recordHistory s snap).history.length - 1)) ∧
    (initState.history = [(([], []) : LayoutPair)] ∧ initState.historyIndex = 0 ∧
      undo initState = initState) ∧
    (∀ evs : List SessionEvent,
      (applyEvents initState evs).historyIndex < (applyEvents initState evs).history.length) := by
  refine ⟨fun s snap => ⟨rfl, rfl, fun h => ?_⟩, ⟨rfl, rfl, rfl⟩, fun evs => ?_⟩
  · unfold cursorOk at h
    unfold recordHistory
    simp only [List.length_append, List.length_take, List.length_cons, List.length_nil]
    omega
  · exact cursorOk_applyEvents evs initState (by unfold cursorOk initState; simp)

/-! ### C5 — alignment idempotence lemmas -/

theorem alignPos_id (d : AlignDir) (single : Bool) (a b c e f g : ℚ)
    (p : Placeholder) : (alignPos d single a b c e f g p).id = p.id := by
  cases single <;> cases d <;> rfl

theorem alignPos_left_multi (a b c e f g : ℚ) (p : Placeholder) :
    alignPos .left false a b c e f g p = { p with x := a } := rfl

theorem alignPos_center_multi (a b c e f g : ℚ) (p : Placeholder) :
    alignPos .center false a b c e f g p = { p with x := f - p.width / 2 } := rfl

theorem alignPos_right_multi (a b c e f g : ℚ) (p : Placeholder) :
    alignPos .right false a b c e f g p = { p with x := b - p.width } := rfl

theorem alignPos_top_multi (a b c e f g : ℚ) (p : Placeholder) :
    alignPos .top false a b c e f g p = { p with y := c } := rfl

theorem alignPos_middle_multi (a b c e f g : ℚ) (p : Placeholder) :
    alignPos .middle false a b c e f g p = { p with y := g - p.height / 2 } := rfl

theorem alignPos_bottom_multi (a b c e f g : ℚ) (p : Placeholder) :
    alignPos .bottom false a b c e f g p = { p with y := e - p.height } := rfl

theorem map_eq_self_of {α : Type} (l : List α) (f : α → α) (h : ∀ x ∈ l, f x = x) :
    l.map f = l := by
  induction l with
  | nil => rfl
  | cons a t ih =>
    simp only [List.map_cons, List.cons.injEq]
    exact ⟨h a (by simp), ih fun x hx => h x (by simp [hx])⟩

theorem filter_map_of_id {sel : List Int} {f : Placeholder → Placeholder}
    (hf : ∀ p, (f p).id = p.id) (ps : List Placeholder) :
    (ps.map f).filter (fun p => sel.contains p.id) =
      (ps.filter (fun p => sel.contains p.id)).map f := by
  rw [List.filter_map]
  exact congrArg (List.map f)
    (List.filter_congr fun x _ => by simp [Function.comp, hf])

theorem jsMin_self (a : ℚ) : jsMin a a = a := by simp [jsMin]

theorem jsMax_self (a : ℚ) : jsMax a a = a := by simp [jsMax]

theorem jsMin_sub (c a b : ℚ) : jsMin (c - a) (c - b) = c - jsMax a b := by
  unfold jsMin jsMax
  split_ifs <;> linarith

theorem jsMax_add (c a b : ℚ) : jsMax (c + a) (c + b) = c + jsMax a b := by
  unfold jsMax
  split_ifs <;> linarith

theorem foldl_jsMin_map_const {α : Type} (l : List α) (c : ℚ) :
    List.foldl jsMin c (l.map fun _ => c) = c := by
  induction l with
  | nil => rfl
  | cons a t ih =>
    simp only [List.map_cons, List.foldl_cons, jsMin_self]
    exact ih

theorem foldl_jsMax_map_const {α : Type} (l : List α) (c : ℚ) :
    List.foldl jsMax c (l.map fun _ => c) = c := by
  induction l with
  | nil => rfl
  | cons a t ih =>
    simp only [List.map_cons, List.foldl_cons, jsMax_self]
    exact ih

theorem listMin_map_const {α : Type} (l : List α) (c : ℚ) (h : l ≠ []) :
    listMin (l.map fun _ => c) = c := by
  cases l with
  | nil => exact absurd rfl h
  | cons a t =>
    simp only [List.map_cons, listMin]
    exact foldl_jsMin_map_const t c

theorem listMax_map_const {α : Type} (l : List α) (c : ℚ) (h : l ≠ []) :
    listMax (l.map fun _ => c) = c := by
  cases l with
  | nil => exact absurd rfl h
  | cons a t =>
    simp only [List.map_cons, listMax]
    exact foldl_jsMax_map_const t c

theorem foldl_jsMin_sub (c : ℚ) (l : List ℚ) :
    ∀ a : ℚ, List.foldl jsMin (c - a) (l.map fun q => c - q) =
      c - List.foldl jsMax a l := by
  induction l with
  | nil => intro a; rfl
  | cons q t ih =>
    intro a
    simp only [List.map_cons, List.foldl_cons, jsMin_sub]
    exact ih (jsMax a q)

theorem listMin_map_sub (l : List ℚ) (c : ℚ) (h : l ≠ []) :
    listMin (l.map fun q => c - q) = c - listMax l := by
  cases l with
  | nil => exact absurd rfl h
  | cons a t =>
    simp only [List.map_cons, listMin, listMax]
    exact foldl_jsMin_sub c t a

theorem foldl_jsMax_add (c : ℚ) (l : List ℚ) :
    ∀ a : ℚ, List.foldl jsMax (c + a) (l.map fun q => c + q) =
      c + List.foldl jsMax a l := by
  induction l with
  | nil => intro a; rfl
  | cons q t ih =>
    intro a
    simp only [List.map_cons, List.foldl_cons, jsMax_add]
    exact ih (jsMax a q)

theorem listMax_map_add (l : List ℚ) (c : ℚ) (h : l ≠ []) :
    listMax (l.map fun q => c + q) = c + listMax l := by
  cases l with
  | nil => exact absurd rfl h
  | cons a t =>
    simp only [List.map_cons, listMax]
    exact foldl_jsMax_add c t a

/-- Re-aligning an already aligned selection is a geometric no-op: with the
bounds recomputed from the aligned items, every aligned item is mapped to
itself (for any bounds the first alignment used). -/
theorem alignPos_idem_core (d : AlignDir) (single : Bool) (items : List Placeholder)
    (hne : items ≠ []) (a b c e f g : ℚ) (p : Placeholder) :
    (let gg := alignPos d single a b c e f g;
     let items' := items.map gg;
     let mX' := listMin (items'.map (·.x));
     let MX' := listMax (items'.map fun r => r.x + r.width);
     let mY' := listMin (items'.map (·.y));
     let MY' := listMax (items'.map fun r => r.y + r.height);
     alignPos d single mX' MX' mY' MY' ((mX' + MX') / 2) ((mY' + MY') / 2) (gg p) = gg p) := by
  cases single with
  | true =>
    dsimp only
    cases d <;> rfl
  | false =>
    dsimp only
    cases d with
    | left =>
      simp only [List.map_map, Function.comp_def, alignPos_left_multi]
      rw [listMin_map_const items _ hne]
    | center =>
      simp only [List.map_map, Function.comp_def, alignPos_center_multi]
      rw [show (items.map fun r => f - r.width / 2) =
          ((items.map fun r => r.width / 2).map fun q => f - q)
          from by rw [List.map_map]; rfl]
      rw [listMin_map_sub _ _ (by simpa using hne)]
      rw [show (items.map fun r => f - r.width / 2 + r.width) =
          ((items.map fun r => r.width / 2).map fun q => f + q)
          from by
            rw [List.map_map]
            exact List.map_congr_left fun r _ => by
              simp only [Function.comp_apply]
              ring]
      rw [listMax_map_add _ _ (by simpa using hne)]
      congr 1
      ring
    | right =>
      simp only [List.map_map, Function.comp_def, alignPos_right_multi]
      rw [show (items.map fun r => b - r.width + r.width) = (items.map fun _ => b)
          from List.map_congr_left fun r _ => by ring]
      rw [listMax_map_const items _ hne]
    | top =>
      simp only [List.map_map, Function.comp_def, alignPos_top_multi]
      rw [listMin_map_const items _ hne]
    | middle =>
      simp only [List.map_map, Function.comp_def, alignPos_middle_multi]
      rw [show (items.map fun r => g - r.height / 2) =
          ((items.map fun r => r.height / 2).map fun q => g - q)
          from by rw [List.map_map]; rfl]
      rw [listMin_map_sub _ _ (by simpa using hne)]
      rw [show (items.map fun r => g - r.height / 2 + r.height) =
          ((items.map fun r => r.height / 2).map fun q => g + q)
          from by
            rw [List.map_map]
            exact List.map_congr_left fun r _ => by
              simp only [Function.comp_apply]
              ring]
      rw [listMax_map_add _ _ (by simpa using hne)]
      congr 1
      ring
    | bottom =>
      simp only [List.map_map, Function.comp_def, alignPos_bottom_multi]
      rw [show (items.map fun r => e - r.height + r.height) = (items.map fun _ => e)
          from List.map_congr_left fun r _ => by ring]
      rw [listMax_map_const items _ hne]

theorem alignApplied_filter_length (sel : List Int) (d : AlignDir)
    (ps : List Placeholder) :
    ((alignApplied sel d ps).filter (fun p => sel.contains p.id)).length =
      (ps.filter (fun p => sel.contains p.id)).length := by
  unfold alignApplied
  dsimp only
  generalize listMin ((ps.filter fun p => sel.contains p.id).map (·.x)) = mX
  generalize listMax ((ps.filter fun p => sel.contains p.id).map fun r => r.x + r.width) = MX
  generalize listMin ((ps.filter fun p => sel.contains p.id).map (·.y)) = mY
  generalize listMax ((ps.filter fun p => sel.contains p.id).map fun r => r.y + r.height) = MY
  generalize decide ((ps.filter fun p => sel.contains p.id).length = 1) = single
  have hFid : ∀ p : Placeholder,
      ((if sel.contains p.id then
          alignPos d single mX MX mY MY ((mX + MX) / 2) ((mY + MY) / 2) p
        else p) : Placeholder).id = p.id := by
    intro p
    by_cases hq : sel.contains p.id
    · rw [if_pos hq, alignPos_id]
    · rw [if_neg hq]
  rw [filter_map_of_id hFid, List.length_map]

theorem alignApplied_idem (sel : List Int) (d : AlignDir) (ps : List Placeholder)
    (hne : ps.filter (fun p => sel.contains p.id) ≠ []) :
    alignApplied sel d (alignApplied sel d ps) = alignApplied sel d ps := by
  unfold alignApplied
  dsimp only
  generalize listMin ((ps.filter fun p => sel.contains p.id).map (·.x)) = mX
  generalize listMax ((ps.filter fun p => sel.contains p.id).map fun r => r.x + r.width) = MX
  generalize listMin ((ps.filter fun p => sel.contains p.id).map (·.y)) = mY
  generalize listMax ((ps.filter fun p => sel.contains p.id).map fun r => r.y + r.height) = MY
  generalize hsg : decide ((ps.filter fun p => sel.contains p.id).length = 1) = single
  have hFid : ∀ p : Placeholder,
      ((if sel.contains p.id then
          alignPos d single mX MX mY MY ((mX + MX) / 2) ((mY + MY) / 2) p
        else p) : Placeholder).id = p.id := by
    intro p
    by_cases hq : sel.contains p.id
    · rw [if_pos hq, alignPos_id]
    · rw [if_neg hq]
  rw [filter_map_of_id hFid]
  have hmapF : (ps.filter (fun p => sel.contains p.id)).map
      (fun p => if sel.contains p.id then
          alignPos d single mX MX mY MY ((mX + MX) / 2) ((mY + MY) / 2) p
        else p) =
      (ps.filter (fun p => sel.contains p.id)).map
        (alignPos d single mX MX mY MY ((mX + MX) / 2) ((mY + MY) / 2)) := by
    refine List.map_congr_left fun r hr => ?_
    rw [if_pos (List.mem_filter.1 hr).2]
  rw [hmapF, List.length_map, hsg]
  refine map_eq_self_of _ _ fun p hp => ?_
  obtain ⟨p₀, hp₀, rfl⟩ := List.mem_map.1 hp
  by_cases hq : sel.contains p₀.id
  · rw [if_pos hq]
    simp only [alignPos_id]
    rw [if_pos hq]
    exact alignPos_idem_core d single (ps.filter (fun p => sel.contains p.id)) hne
      mX MX mY MY ((mX + MX) / 2) ((mY + MY) / 2) p₀
  · rw [if_neg hq, if_neg hq]

theorem alignList_idem (sel : List Int) (d : AlignDir) (ps : List Placeholder) :
    alignList sel d (alignList sel d ps) = alignList sel d ps := by
  by_cases hsel : sel.length = 0
  · have h : ∀ l : List Placeholder, alignList sel d l = l := fun l => by
      unfold alignList
      rw [if_pos hsel]
    rw [h, h]
  · by_cases hitems : (ps.filter (fun p => sel.contains p.id)).length = 0
    · have h1 : alignList sel d ps = ps := by
        unfold alignList
        rw [if_neg hsel, if_pos hitems]
      rw [h1]
      exact h1
    · have h1 : alignList sel d ps = alignApplied sel d ps := by
        unfold alignList
        rw [if_neg hsel, if_neg hitems]
      have hne : ps.filter (fun p => sel.contains p.id) ≠ [] := by
        intro hx
        rw [hx] at hitems
        exact hitems rfl
      rw [h1]
      have h2 : alignList sel d (alignApplied sel d ps) =
          alignApplied sel d (alignApplied sel d ps) := by
        unfold alignList
        rw [if_neg hsel, if_neg (by rw [alignApplied_filter_length]; exact hitems)]
      rw [h2, alignApplied_idem sel d ps hne]

/-- C5 counterexample: aligning two selected slots left twice from a concrete
state leaves the geometry of the second application identical to the first,
yet the history grows by one more entry — the source's no-op check compares
array references, and `alignSelected` always maps to a fresh array, so the
redundant second application does push a new history entry. -/
theorem c5_align_history_counterexample :
    (alignSelected (alignSelected
        { initState with
            layouts := ([⟨1, 1/10, 1/10, 1/5, 1/5, none, .cover⟩,
                         ⟨2, 1/2, 1/2, 1/5, 3/10, none, .cover⟩], [])
            selectedIds := [1, 2] } .left) .left).active =
      (alignSelected
        { initState with
            layouts := ([⟨1, 1/10, 1/10, 1/5, 1/5, none, .cover⟩,
                         ⟨2, 1/2, 1/2, 1/5, 3/10, none, .cover⟩], [])
            selectedIds := [1, 2] } .left).active ∧
    (alignSelected (alignSelected
        { initState with
            layouts := ([⟨1, 1/10, 1/10, 1/5, 1/5, none, .cover⟩,
                         ⟨2, 1/2, 1/2, 1/5, 3/10, none, .cover⟩], [])
            selectedIds := [1, 2] } .left) .left).history.length =
      (alignSelected
        { initState with
            layouts := ([⟨1, 1/10, 1/10, 1/5, 1/5, none, .cover⟩,
                         ⟨2, 1/2, 1/2, 1/5, 3/10, none, .cover⟩], [])
            selectedIds := [1, 2] } .left).history.length + 1 := by
  refine ⟨by with_unfolding_all decide, by with_unfolding_all decide⟩

/-- C5 (amended): applying an alignment twice in a row produces the same
placeholder geometry both times, but the second application still pushes a
new (duplicate) history entry: the no-op check in
`updateCurrentPlaceholders` compares array references and the align updater
always builds a fresh array. -/
theorem c5_align_idem_amended :
    (∀ (sel : List Int) (d : AlignDir) (ps : List Placeholder),
      alignList sel d (alignList sel d ps) = alignList sel d ps) ∧
    (∀ (s : DesignerState) (d : AlignDir),
      s.selectedIds.length ≠ 0 →
      (s.active.filter (fun p => s.selectedIds.contains p.id)).length ≠ 0 →
      (alignSelected s d).historyIndex = s.historyIndex + 1) := by
  refine ⟨alignList_idem, fun s d h1 h2 => ?_⟩
  unfold alignSelected
  rw [if_neg h1, if_neg h2]
  rfl

/-- C5 witness: the amended theorem at a concrete two-slot selection — the
double left-align is a geometric no-op while the align operation advances
the history cursor. -/
theorem c5_align_idem_amended_witness :
    alignList [1, 2] .left (alignList [1, 2] .left
        [⟨1, 1/10, 1/10, 1/5, 1/5, none, .cover⟩,
         ⟨2, 1/2, 1/2, 1/5, 3/10, none, .cover⟩]) =
      alignList [1, 2] .left
        [⟨1, 1/10, 1/10, 1/5, 1/5, none, .cover⟩,
         ⟨2, 1/2, 1/2, 1/5, 3/10, none, .cover⟩] ∧
    (alignSelected
        { initState with
            layouts := ([⟨1, 1/10, 1/10, 1/5, 1/5, none, .cover⟩,
                         ⟨2, 1/2, 1/2, 1/5, 3/10, none, .cover⟩], [])
            selectedIds := [1, 2] } .left).historyIndex =
      ({ initState with
            layouts := ([⟨1, 1/10, 1/10, 1/5, 1/5, none, .cover⟩,
                         ⟨2, 1/2, 1/2, 1/5, 3/10, none, .cover⟩], [])
            selectedIds := [1, 2] } : DesignerState).historyIndex + 1 :=
  ⟨c5_align_idem_amended.1 [1, 2] .left _,
   c5_align_idem_amended.2 _ .left (by with_unfolding_all decide)
     (by with_unfolding_all decide)⟩

/-! ### C1 — undo/redo round trip -/

/-- The invariant maintained by the structural operations: the first history
entry is the empty pair, the cursor sits on the last entry, and the last
entry is the current layouts value. -/
def histOk (s : DesignerState) : Prop :=
  s.history.head? = some (([], []) : LayoutPair) ∧
  s.historyIndex + 1 = s.history.length ∧
  s.history.getLast? = some s.layouts

theorem recordHistory_history_of_histOk (s : DesignerState) (nl : LayoutPair)
    (h : histOk s) : (recordHistory s nl).history = s.history ++ [nl] := by
  obtain ⟨h1, h2, h3⟩ := h
  unfold recordHistory
  simp only
  rw [List.take_of_length_le (by omega)]

theorem histOk_push (s t : DesignerState)
    (hh : t.history = s.history.take (s.historyIndex + 1) ++ [t.layouts])
    (hi : t.historyIndex = s.historyIndex + 1)
    (h : histOk s) :
    histOk t ∧ t.history.length ≤ s.history.length + 1 := by
  obtain ⟨h1, h2, h3⟩ := h
  have htake : s.history.take (s.historyIndex + 1) = s.history :=
    List.take_of_length_le (by omega)
  rw [htake] at hh
  have hne : s.history ≠ [] := by
    intro hnil
    rw [hnil] at h1
    exact Option.noConfusion h1
  refine ⟨⟨?_, ?_, ?_⟩, ?_⟩
  · rw [hh]
    cases hl : s.history with
    | nil => exact absurd hl hne
    | cons a tl =>
      rw [hl] at h1
      simpa using h1
  · rw [hh, hi]
    simp only [List.length_append, List.length_cons, List.length_nil]
    omega
  · rw [hh]
    exact List.getLast?_concat _
  · rw [hh]
    simp

theorem histOk_same (s t : DesignerState) (hh : t.history = s.history)
    (hi : t.historyIndex = s.historyIndex) (hl : t.layouts = s.layouts)
    (h : histOk s) : histOk t := by
  obtain ⟨h1, h2, h3⟩ := h
  exact ⟨hh ▸ h1, by rw [hh, hi]; exact h2, by rw [hh, hl]; exact h3⟩

theorem LayoutPair.set_active_self (s : DesignerState) :
    s.layouts.set s.activeCanvasIdx s.active = s.layouts := by
  unfold DesignerState.active LayoutPair.set LayoutPair.get
  split <;> rfl

theorem histOk_applyStructOp (s : DesignerState) (op : StructOp) (h : histOk s) :
    histOk (applyStructOp s op) ∧
    (applyStructOp s op).history.length ≤ s.history.length + 1 := by
  cases op with
  | addSlot newId =>
    show histOk (addPlaceholder s newId) ∧
      (addPlaceholder s newId).history.length ≤ s.history.length + 1
    apply histOk_push s
    · rfl
    · rfl
    · exact h
  | preset k baseId =>
    show histOk (addPreset s k baseId) ∧
      (addPreset s k baseId).history.length ≤ s.history.length + 1
    apply histOk_push s
    · rfl
    · rfl
    · exact h
  | removeSel =>
    show histOk (removeSelected s) ∧
      (removeSelected s).history.length ≤ s.history.length + 1
    unfold removeSelected
    split
    · apply histOk_push s
      · rfl
      · rfl
      · exact h
    · exact ⟨h, Nat.le_succ _⟩
  | alignOp d =>
    show histOk (alignSelected s d) ∧
      (alignSelected s d).history.length ≤ s.history.length + 1
    unfold alignSelected
    split
    · exact ⟨h, Nat.le_succ _⟩
    · split
      · exact ⟨h, Nat.le_succ _⟩
      · apply histOk_push s
        · rfl
        · rfl
        · exact h
  | distributeOp ax =>
    show histOk (distributeSelected s ax) ∧
      (distributeSelected s ax).history.length ≤ s.history.length + 1
    unfold distributeSelected
    split
    · exact ⟨h, Nat.le_succ _⟩
    · apply histOk_push s
      · rfl
      · rfl
      · exact h
  | pasteIt baseId =>
    show histOk (pasteOp s baseId) ∧
      (pasteOp s baseId).history.length ≤ s.history.length + 1
    unfold pasteOp
    split
    · exact ⟨h, Nat.le_succ _⟩
    · apply histOk_push s
      · rfl
      · rfl
      · exact h
  | gestureRelease upd =>
    show histOk (dragRelease s upd) ∧
      (dragRelease s upd).history.length ≤ s.history.length + 1
    unfold dragRelease
    dsimp only
    split
    · next heq =>
      refine ⟨histOk_same s _ rfl rfl ?_ h, Nat.le_succ _⟩
      show s.layouts.set s.activeCanvasIdx (upd s.active) = s.layouts
      rw [heq]
      exact LayoutPair.set_active_self s
    · apply histOk_push s
      · rfl
      · rfl
      · exact h
  | loadSaved slots =>
    show histOk (loadLayout s slots) ∧
      (loadLayout s slots).history.length ≤ s.history.length + 1
    apply histOk_push s
    · rfl
    · rfl
    · exact h

theorem histOk_applyStructOps (ops : List StructOp) :
    ∀ s : DesignerState, histOk s →
      histOk (applyStructOps s ops) ∧
      (applyStructOps s ops).history.length ≤ s.history.length + ops.length := by
  induction ops with
  | nil => exact fun s h => ⟨h, by simp [applyStructOps]⟩
  | cons op rest ih =>
    intro s h
    obtain ⟨h1, hlen1⟩ := histOk_applyStructOp s op h
    obtain ⟨h2, hlen2⟩ := ih (applyStructOp s op) h1
    refine ⟨h2, ?_⟩
    show (applyStructOps (applyStructOp s op) rest).history.length ≤ _
    simp only [List.length_cons]
    omega

/-- The invariant maintained across `undo`/`redo`: the first history entry
is the empty pair, the cursor is in range, and the entry under the cursor is
the current layouts value. -/
def undoReady (s : DesignerState) : Prop :=
  s.history.head? = some (([], []) : LayoutPair) ∧
  s.historyIndex < s.history.length ∧
  s.history.getD s.historyIndex ([], []) = s.layouts

theorem histOk_undoReady (s : DesignerState) (h : histOk s) : undoReady s := by
  obtain ⟨h1, h2, h3⟩ := h
  refine ⟨h1, by omega, ?_⟩
  rw [List.getD_eq_getElem?_getD]
  have : s.historyIndex = s.history.length - 1 := by omega
  rw [this, ← List.getLast?_eq_getElem?, h3]
  rfl

theorem undo_spec (s : DesignerState) (h : undoReady s) :
    undoReady (undo s) ∧ (undo s).history = s.history ∧
    (undo s).historyIndex = s.historyIndex - 1 := by
  obtain ⟨h1, h2, h3⟩ := h
  unfold undo
  split
  · next hpos =>
    refine ⟨⟨h1, by simp only; omega, ?_⟩, rfl, rfl⟩
    simp only
  · next hneg =>
    have h0 : s.historyIndex = 0 := by omega
    exact ⟨⟨h1, h2, h3⟩, rfl, by omega⟩

theorem undoN_spec (k : ℕ) :
    ∀ s : DesignerState, undoReady s → s.historyIndex ≤ k →
      (undoN k s).history = s.history ∧ (undoN k s).historyIndex = 0 ∧
      undoReady (undoN k s) := by
  induction k with
  | zero =>
    intro s h hk
    refine ⟨rfl, ?_, h⟩
    show s.historyIndex = 0
    omega
  | succ k ih =>
    intro s h hk
    obtain ⟨h', hh, hi⟩ := undo_spec s h
    obtain ⟨a, b, c⟩ := ih (undo s) h' (by omega)
    refine ⟨?_, b, c⟩
    show (undoN k (undo s)).history = s.history
    rw [a, hh]

theorem redo_spec (s : DesignerState) (h : undoReady s) :
    undoReady (redo s) ∧ (redo s).history = s.history ∧
    ((s.historyIndex < s.history.length - 1 →
        (redo s).historyIndex = s.historyIndex + 1) ∧
      (¬ s.historyIndex < s.history.length - 1 →
        redo s = s)) := by
  obtain ⟨h1, h2, h3⟩ := h
  unfold redo
  split
  · next hpos =>
    refine ⟨⟨h1, by simp only; omega, ?_⟩, rfl, fun _ => rfl, fun hc => absurd hpos hc⟩
    simp only
  · next hneg =>
    exact ⟨⟨h1, h2, h3⟩, rfl, fun hc => absurd hc hneg, fun _ => rfl⟩

theorem redoN_spec (k : ℕ) :
    ∀ s : DesignerState, undoReady s → s.history.length - 1 - s.historyIndex ≤ k →
      (redoN k s).history = s.history ∧
      (redoN k s).historyIndex = s.history.length - 1 ∧
      undoReady (redoN k s) := by
  induction k with
  | zero =>
    intro s h hk
    have h2 := h.2.1
    refine ⟨rfl, ?_, h⟩
    show s.historyIndex = s.history.length - 1
    omega
  | succ k ih =>
    intro s h hk
    obtain ⟨h', hh, hstep, hstop⟩ := redo_spec s h
    by_cases hc : s.historyIndex < s.history.length - 1
    · obtain ⟨a, b, c⟩ := ih (redo s) h' (by rw [hh, hstep hc]; omega)
      refine ⟨?_, ?_, c⟩
      · show (redoN k (redo s)).history = s.history
        rw [a, hh]
      · show (redoN k (redo s)).historyIndex = s.history.length - 1
        rw [b, hh]
    · obtain ⟨a, b, c⟩ := ih (redo s) h' (by rw [hstop hc]; omega)
      refine ⟨?_, ?_, c⟩
      · show (redoN k (redo s)).history = s.history
        rw [a, hh]
      · show (redoN k (redo s)).historyIndex = s.history.length - 1
        rw [b, hh]

theorem getD_zero_of_head? {l : List LayoutPair} {a : LayoutPair}
    (h : l.head? = some a) : l.getD 0 ([], []) = a := by
  cases l with
  | nil => exact Option.noConfusion h
  | cons b tl =>
    simp only [List.head?_cons, Option.some.injEq] at h
    simp [List.getD, h]

theorem getD_last_of_getLast? {l : List LayoutPair} {a : LayoutPair}
    (h : l.getLast? = some a) : l.getD (l.length - 1) ([], []) = a := by
  rw [List.getD_eq_getElem?_getD, ← List.getLast?_eq_getElem?, h]
  rfl

/-- C1: starting from a fresh session, after any sequence of N structural
operations (add/remove/preset/align/distribute/paste/drag-release/load),
calling `undo` N times restores the template pair to the initial empty state
`[[], []]`, and calling `redo` N times after that restores exactly the
layouts that held after the N-th operation. -/
theorem c1_undo_redo_roundtrip (ops : List StructOp) :
    (undoN ops.length (applyStructOps initState ops)).layouts = (([], []) : LayoutPair) ∧
    (redoN ops.length (undoN ops.length (applyStructOps initState ops))).layouts =
      (applyStructOps initState ops).layouts := by
  have h0 : histOk initState := ⟨rfl, rfl, rfl⟩
  obtain ⟨hok, hlen⟩ := histOk_applyStructOps ops initState h0
  have hinitlen : initState.history.length = 1 := rfl
  have hur : undoReady (applyStructOps initState ops) := histOk_undoReady _ hok
  obtain ⟨hofirst, hoidx, holast⟩ := hok
  have hidx : (applyStructOps initState ops).historyIndex ≤ ops.length := by omega
  obtain ⟨huh, hui, hur'⟩ := undoN_spec ops.length _ hur hidx
  obtain ⟨g1, g2, g3⟩ := hur'
  constructor
  · rw [← g3, hui, huh]
    exact getD_zero_of_head? hofirst
  · obtain ⟨rh, ri, rur⟩ := redoN_spec ops.length _ ⟨g1, g2, g3⟩ (by rw [hui, huh]; omega)
    obtain ⟨r1, r2, r3⟩ := rur
    rw [← r3, ri, rh, huh]
    exact getD_last_of_getLast? holast

/-- C2 witness: resizing a lock-free 0.5×0.5 placeholder with the `r` handle
by a large negative delta keeps both dimensions at least 0.02. -/
theorem c2_min_size_amended_witness :
    MIN_SLOT_SIZE ≤ (resizeFrame .r ⟨1, 1/10, 1/10, 1/2, 1/2, none, .cover⟩
        800 600 (-10) 0 [0, 1/2, 1] [0, 1/2, 1]).1.width ∧
    MIN_SLOT_SIZE ≤ (resizeFrame .r ⟨1, 1/10, 1/10, 1/2, 1/2, none, .cover⟩
        800 600 (-10) 0 [0, 1/2, 1] [0, 1/2, 1]).1.height :=
  (c2_min_size_amended .r ⟨1, 1/10, 1/10, 1/2, 1/2, none, .cover⟩ 800 600 (-10) 0
    [0, 1/2, 1] [0, 1/2, 1] (by with_unfolding_all decide)
    (by with_unfolding_all decide)).1 rfl

/-! ### C6 — distribute lemmas -/

/-- The cumulative placement of the inner items: the list of inner items
with their leading edges rewritten to `cx`, `cx + w₀ + gap`, …. -/
def assignedX (gap : ℚ) : ℚ → List Placeholder → List Placeholder
  | _, [] => []
  | cx, p :: l => { p with x := cx } :: assignedX gap (cx + p.width + gap) l

/-- Vertical counterpart of `assignedX`. -/
def assignedY (gap : ℚ) : ℚ → List Placeholder → List Placeholder
  | _, [] => []
  | cy, p :: l => { p with y := cy } :: assignedY gap (cy + p.height + gap) l

theorem innerShiftX_keys (gap : ℚ) :
    ∀ (l : List Placeholder) (cx : ℚ),
      (innerShiftX gap cx l).map Prod.fst = l.map (·.id) := by
  intro l
  induction l with
  | nil => intro cx; rfl
  | cons p t ih => intro cx; simp [innerShiftX, ih]

theorem innerShiftY_keys (gap : ℚ) :
    ∀ (l : List Placeholder) (cy : ℚ),
      (innerShiftY gap cy l).map Prod.fst = l.map (·.id) := by
  intro l
  induction l with
  | nil => intro cy; rfl
  | cons p t ih => intro cy; simp [innerShiftY, ih]

theorem applyUpdX_not_mem (updates : List (Int × ℚ)) (p : Placeholder)
    (h : ∀ q ∈ updates, p.id ≠ q.1) : applyUpdX updates p = p := by
  unfold applyUpdX
  rw [List.lookup_eq_none_iff.2 fun q hq => by simpa using h q hq]

theorem applyUpdY_not_mem (updates : List (Int × ℚ)) (p : Placeholder)
    (h : ∀ q ∈ updates, p.id ≠ q.1) : applyUpdY updates p = p := by
  unfold applyUpdY
  rw [List.lookup_eq_none_iff.2 fun q hq => by simpa using h q hq]

theorem assignedX_of_innerShift (gap : ℚ) :
    ∀ (l : List Placeholder) (cx : ℚ), (l.map (·.id)).Nodup →
      l.map (applyUpdX (innerShiftX gap cx l)) = assignedX gap cx l := by
  intro l
  induction l with
  | nil => intro cx _; rfl
  | cons p t ih =>
    intro cx hnd
    simp only [List.map_cons, List.nodup_cons] at hnd
    obtain ⟨hp, ht⟩ := hnd
    simp only [innerShiftX, List.map_cons, assignedX]
    have hhead : applyUpdX ((p.id, cx) :: innerShiftX gap (cx + p.width + gap) t) p =
        { p with x := cx } := by
      unfold applyUpdX
      rw [List.lookup_cons_self]
    have htail : t.map (applyUpdX ((p.id, cx) :: innerShiftX gap (cx + p.width + gap) t)) =
        t.map (applyUpdX (innerShiftX gap (cx + p.width + gap) t)) := by
      refine List.map_congr_left fun r hr => ?_
      have hne : (r.id == p.id) = false :=
        beq_eq_false_iff_ne.2 fun he => hp (he ▸ List.mem_map_of_mem (·.id) hr)
      unfold applyUpdX
      rw [List.lookup_cons, hne]
    rw [hhead, htail, ih _ ht]

theorem assignedY_of_innerShift (gap : ℚ) :
    ∀ (l : List Placeholder) (cy : ℚ), (l.map (·.id)).Nodup →
      l.map (applyUpdY (innerShiftY gap cy l)) = assignedY gap cy l := by
  intro l
  induction l with
  | nil => intro cy _; rfl
  | cons p t ih =>
    intro cy hnd
    simp only [List.map_cons, List.nodup_cons] at hnd
    obtain ⟨hp, ht⟩ := hnd
    simp only [innerShiftY, List.map_cons, assignedY]
    have hhead : applyUpdY ((p.id, cy) :: innerShiftY gap (cy + p.height + gap) t) p =
        { p with y := cy } := by
      unfold applyUpdY
      rw [List.lookup_cons_self]
    have htail : t.map (applyUpdY ((p.id, cy) :: innerShiftY gap (cy + p.height + gap) t)) =
        t.map (applyUpdY (innerShiftY gap (cy + p.height + gap) t)) := by
      refine List.map_congr_left fun r hr => ?_
      have hne : (r.id == p.id) = false :=
        beq_eq_false_iff_ne.2 fun he => hp (he ▸ List.mem_map_of_mem (·.id) hr)
      unfold applyUpdY
      rw [List.lookup_cons, hne]
    rw [hhead, htail, ih _ ht]

theorem foldl_add_width (l : List Placeholder) :
    ∀ a : ℚ, l.foldl (fun sum p => sum + p.width) a = a + (l.map (·.width)).sum := by
  induction l with
  | nil => intro a; simp
  | cons p t ih =>
    intro a
    simp only [List.foldl_cons, List.map_cons, List.sum_cons, ih, add_assoc]

theorem foldl_add_height (l : List Placeholder) :
    ∀ a : ℚ, l.foldl (fun sum p => sum + p.height) a = a + (l.map (·.height)).sum := by
  induction l with
  | nil => intro a; simp
  | cons p t ih =>
    intro a
    simp only [List.foldl_cons, List.map_cons, List.sum_cons, ih, add_assoc]

theorem chain_assignedX (gap : ℚ) (lastP : Placeholder) :
    ∀ (l : List Placeholder) (cx : ℚ) (pred : Placeholder),
      pred.x + pred.width + gap = cx →
      lastP.x = cx + (l.map (·.width)).sum + gap * l.length →
      List.Chain' (fun a b => b.x - (a.x + a.width) = gap)
        (pred :: assignedX gap cx l ++ [lastP]) := by
  intro l
  induction l with
  | nil =>
    intro cx pred h1 h2
    simp only [assignedX, List.nil_append, List.singleton_append, List.chain'_cons,
      List.chain'_singleton, and_true]
    simp only [List.map_nil, List.sum_nil, List.length_nil, Nat.cast_zero] at h2
    linear_combination h2 - h1
  | cons p t ih =>
    intro cx pred h1 h2
    simp only [assignedX, List.cons_append, List.chain'_cons]
    constructor
    · show cx - (pred.x + pred.width) = gap
      linear_combination -h1
    · have h2' : lastP.x = (cx + p.width + gap) + (t.map (·.width)).sum + gap * t.length := by
        simp only [List.map_cons, List.sum_cons, List.length_cons, Nat.cast_add,
          Nat.cast_one] at h2
        linear_combination h2
      exact ih (cx + p.width + gap) { p with x := cx } rfl h2'

theorem chain_assignedY (gap : ℚ) (lastP : Placeholder) :
    ∀ (l : List Placeholder) (cy : ℚ) (pred : Placeholder),
      pred.y + pred.height + gap = cy →
      lastP.y = cy + (l.map (·.height)).sum + gap * l.length →
      List.Chain' (fun a b => b.y - (a.y + a.height) = gap)
        (pred :: assignedY gap cy l ++ [lastP]) := by
  intro l
  induction l with
  | nil =>
    intro cy pred h1 h2
    simp only [assignedY, List.nil_append, List.singleton_append, List.chain'_cons,
      List.chain'_singleton, and_true]
    simp only [List.map_nil, List.sum_nil, List.length_nil, Nat.cast_zero] at h2
    linear_combination h2 - h1
  | cons p t ih =>
    intro cy pred h1 h2
    simp only [assignedY, List.cons_append, List.chain'_cons]
    constructor
    · show cy - (pred.y + pred.height) = gap
      linear_combination -h1
    · have h2' : lastP.y = (cy + p.height + gap) + (t.map (·.height)).sum + gap * t.length := by
        simp only [List.map_cons, List.sum_cons, List.length_cons, Nat.cast_add,
          Nat.cast_one] at h2
        linear_combination h2
      exact ih (cy + p.height + gap) { p with y := cy } rfl h2'

theorem distributeListX_eq (sel : List Int) (ps : List Placeholder)
    (first : Placeholder) (rest : List Placeholder)
    (hsel : ¬ sel.length < 3) (hsx : sortedSelX sel ps = first :: rest) :
    distributeListX sel ps = ps.map (applyUpdX (innerShiftX (gapX (first :: rest))
      (first.x + first.width + gapX (first :: rest)) rest.dropLast)) := by
  unfold distributeListX
  rw [if_neg hsel, hsx]

theorem distributeListY_eq (sel : List Int) (ps : List Placeholder)
    (first : Placeholder) (rest : List Placeholder)
    (hsel : ¬ sel.length < 3) (hsy : sortedSelY sel ps = first :: rest) :
    distributeListY sel ps = ps.map (applyUpdY (innerShiftY (gapY (first :: rest))
      (first.y + first.height + gapY (first :: rest)) rest.dropLast)) := by
  unfold distributeListY
  rw [if_neg hsel, hsy]

theorem distributeAssignedX_eq (sel : List Int) (ps : List Placeholder)
    (first : Placeholder) (rest : List Placeholder)
    (hsx : sortedSelX sel ps = first :: rest) :
    distributeAssignedX sel ps = (first :: rest).map
      (applyUpdX (innerShiftX (gapX (first :: rest))
        (first.x + first.width + gapX (first :: rest)) rest.dropLast)) := by
  unfold distributeAssignedX
  rw [hsx]

theorem distributeAssignedY_eq (sel : List Int) (ps : List Placeholder)
    (first : Placeholder) (rest : List Placeholder)
    (hsy : sortedSelY sel ps = first :: rest) :
    distributeAssignedY sel ps = (first :: rest).map
      (applyUpdY (innerShiftY (gapY (first :: rest))
        (first.y + first.height + gapY (first :: rest)) rest.dropLast)) := by
  unfold distributeAssignedY
  rw [hsy]

theorem distributeX_main (sel : List Int) (ps : List Placeholder)
    (hsel : ¬ sel.length < 3) (hnd : (ps.map (·.id)).Nodup)
    (hn : 3 ≤ (sortedSelX sel ps).length) :
    (∀ (i : ℕ) (p : Placeholder), ps[i]? = some p →
      p.id ∉ (innerX sel ps).map (·.id) →
      (distributeListX sel ps)[i]? = some p) ∧
    (distributeAssignedX sel ps).head? = (sortedSelX sel ps).head? ∧
    (distributeAssignedX sel ps).getLast? = (sortedSelX sel ps).getLast? ∧
    List.Chain' (fun a b => b.x - (a.x + a.width) = gapX (sortedSelX sel ps))
      (distributeAssignedX sel ps) := by
  have hfilt : ((ps.filter (fun p => sel.contains p.id)).map (·.id)).Nodup :=
    List.Nodup.sublist ((List.filter_sublist _).map _) hnd
  have hperm : List.Perm ((sortedSelX sel ps).map (·.id))
      ((ps.filter (fun p => sel.contains p.id)).map (·.id)) :=
    (List.mergeSort_perm _ _).map _
  have hndsorted : ((sortedSelX sel ps).map (·.id)).Nodup := hperm.nodup_iff.2 hfilt
  rcases hsx : sortedSelX sel ps with _ | ⟨first, rest⟩
  · rw [hsx] at hn
    exact absurd hn (by simp)
  rw [hsx] at hndsorted
  have hrestlen : 2 ≤ rest.length := by
    rw [hsx] at hn
    simpa using hn
  have hrestne : rest ≠ [] := by
    intro h
    rw [h] at hrestlen
    simp at hrestlen
  obtain ⟨inn, lst, hrest_eq⟩ : ∃ inn lst, rest = inn ++ [lst] :=
    ⟨rest.dropLast, rest.getLast hrestne, (List.dropLast_append_getLast hrestne).symm⟩
  subst hrest_eq
  simp only [List.map_cons, List.map_append, List.map_nil, List.nodup_cons] at hndsorted
  obtain ⟨hfid, hrestnd⟩ := hndsorted
  have hfirstNot : first.id ∉ inn.map (·.id) := fun hmem =>
    hfid (List.mem_append_left _ hmem)
  have hinnd : (inn.map (·.id)).Nodup := (List.nodup_append.1 hrestnd).1
  have hlastNot : lst.id ∉ inn.map (·.id) := fun hmem =>
    (List.nodup_append.1 hrestnd).2.2 hmem (by simp)
  have happly : ∀ p : Placeholder, p.id ∉ inn.map (·.id) →
      applyUpdX (innerShiftX (gapX (first :: (inn ++ [lst])))
        (first.x + first.width + gapX (first :: (inn ++ [lst]))) inn) p = p := by
    intro p hp
    apply applyUpdX_not_mem
    intro q hq heq
    apply hp
    rw [← innerShiftX_keys (gapX (first :: (inn ++ [lst]))) inn
      (first.x + first.width + gapX (first :: (inn ++ [lst]))), heq]
    exact List.mem_map_of_mem Prod.fst hq
  refine ⟨?_, ?_, ?_, ?_⟩
  · intro i p hip hpnot
    have hinner_eq : innerX sel ps = inn := by
      unfold innerX
      rw [hsx]
      exact List.dropLast_concat
    rw [hinner_eq] at hpnot
    rw [distributeListX_eq sel ps first (inn ++ [lst]) hsel hsx]
    simp only [List.dropLast_concat]
    rw [List.getElem?_map, hip]
    exact congrArg some (happly p hpnot)
  · rw [distributeAssignedX_eq sel ps first (inn ++ [lst]) hsx]
    simp only [List.dropLast_concat, List.map_cons, List.head?_cons]
    rw [happly first hfirstNot]
  · rw [distributeAssignedX_eq sel ps first (inn ++ [lst]) hsx]
    simp only [List.dropLast_concat, List.map_cons, List.map_append, List.map_nil]
    rw [← List.cons_append, List.getLast?_concat, ← List.cons_append,
      List.getLast?_concat]
    exact congrArg some (happly lst hlastNot)
  · rw [distributeAssignedX_eq sel ps first (inn ++ [lst]) hsx]
    simp only [List.dropLast_concat, List.map_cons, List.map_append, List.map_nil]
    rw [happly first hfirstNot, happly lst hlastNot,
      assignedX_of_innerShift _ inn _ hinnd]
    have hG : gapX (first :: (inn ++ [lst])) =
        (lst.x - (first.x + first.width) - (inn.map (·.width)).sum) /
          ((inn.length : ℚ) + 1) := by
      unfold gapX
      simp only [List.getLastD_eq_getLast?, List.getLast?_concat, Option.getD_some,
        List.dropLast_concat, List.length_cons, List.length_append, List.length_cons,
        List.length_nil]
      rw [foldl_add_width, zero_add]
      push_cast
      ring_nf
    have hden : ((inn.length : ℚ) + 1) ≠ 0 := by positivity
    refine chain_assignedX (gapX (first :: (inn ++ [lst]))) lst inn _ first rfl ?_
    rw [hG]
    field_simp
    ring

theorem distributeY_main (sel : List Int) (ps : List Placeholder)
    (hsel : ¬ sel.length < 3) (hnd : (ps.map (·.id)).Nodup)
    (hn : 3 ≤ (sortedSelY sel ps).length) :
    (∀ (i : ℕ) (p : Placeholder), ps[i]? = some p →
      p.id ∉ (innerY sel ps).map (·.id) →
      (distributeListY sel ps)[i]? = some p) ∧
    (distributeAssignedY sel ps).head? = (sortedSelY sel ps).head? ∧
    (distributeAssignedY sel ps).getLast? = (sortedSelY sel ps).getLast? ∧
    List.Chain' (fun a b => b.y - (a.y + a.height) = gapY (sortedSelY sel ps))
      (distributeAssignedY sel ps) := by
  have hfilt : ((ps.filter (fun p => sel.contains p.id)).map (·.id)).Nodup :=
    List.Nodup.sublist ((List.filter_sublist _).map _) hnd
  have hperm : List.Perm ((sortedSelY sel ps).map (·.id))
      ((ps.filter (fun p => sel.contains p.id)).map (·.id)) :=
    (List.mergeSort_perm _ _).map _
  have hndsorted : ((sortedSelY sel ps).map (·.id)).Nodup := hperm.nodup_iff.2 hfilt
  rcases hsx : sortedSelY sel ps with _ | ⟨first, rest⟩
  · rw [hsx] at hn
    exact absurd hn (by simp)
  rw [hsx] at hndsorted
  have hrestlen : 2 ≤ rest.length := by
    rw [hsx] at hn
    simpa using hn
  have hrestne : rest ≠ [] := by
    intro h
    rw [h] at hrestlen
    simp at hrestlen
  obtain ⟨inn, lst, hrest_eq⟩ : ∃ inn lst, rest = inn ++ [lst] :=
    ⟨rest.dropLast, rest.getLast hrestne, (List.dropLast_append_getLast hrestne).symm⟩
  subst hrest_eq
  simp only [List.map_cons, List.map_append, List.map_nil, List.nodup_cons] at hndsorted
  obtain ⟨hfid, hrestnd⟩ := hndsorted
  have hfirstNot : first.id ∉ inn.map (·.id) := fun hmem =>
    hfid (List.mem_append_left _ hmem)
  have hinnd : (inn.map (·.id)).Nodup := (List.nodup_append.1 hrestnd).1
  have hlastNot : lst.id ∉ inn.map (·.id) := fun hmem =>
    (List.nodup_append.1 hrestnd).2.2 hmem (by simp)
  have happly : ∀ p : Placeholder, p.id ∉ inn.map (·.id) →
      applyUpdY (innerShiftY (gapY (first :: (inn ++ [lst])))
        (first.y + first.height + gapY (first :: (inn ++ [lst]))) inn) p = p := by
    intro p hp
    apply applyUpdY_not_mem
    intro q hq heq
    apply hp
    rw [← innerShiftY_keys (gapY (first :: (inn ++ [lst]))) inn
      (first.y + first.height + gapY (first :: (inn ++ [lst]))), heq]
    exact List.mem_map_of_mem Prod.fst hq
  refine ⟨?_, ?_, ?_, ?_⟩
  · intro i p hip hpnot
    have hinner_eq : innerY sel ps = inn := by
      unfold innerY
      rw [hsx]
      exact List.dropLast_concat
    rw [hinner_eq] at hpnot
    rw [distributeListY_eq sel ps first (inn ++ [lst]) hsel hsx]
    simp only [List.dropLast_concat]
    rw [List.getElem?_map, hip]
    exact congrArg some (happly p hpnot)
  · rw [distributeAssignedY_eq sel ps first (inn ++ [lst]) hsx]
    simp only [List.dropLast_concat, List.map_cons, List.head?_cons]
    rw [happly first hfirstNot]
  · rw [distributeAssignedY_eq sel ps first (inn ++ [lst]) hsx]
    simp only [List.dropLast_concat, List.map_cons, List.map_append, List.map_nil]
    rw [← List.cons_append, List.getLast?_concat, ← List.cons_append,
      List.getLast?_concat]
    exact congrArg some (happly lst hlastNot)
  · rw [distributeAssignedY_eq sel ps first (inn ++ [lst]) hsx]
    simp only [List.dropLast_concat, List.map_cons, List.map_append, List.map_nil]
    rw [happly first hfirstNot, happly lst hlastNot,
      assignedY_of_innerShift _ inn _ hinnd]
    have hG : gapY (first :: (inn ++ [lst])) =
        (lst.y - (first.y + first.height) - (inn.map (·.height)).sum) /
          ((inn.length : ℚ) + 1) := by
      unfold gapY
      simp only [List.getLastD_eq_getLast?, List.getLast?_concat, Option.getD_some,
        List.dropLast_concat, List.length_cons, List.length_append, List.length_cons,
        List.length_nil]
      rw [foldl_add_height, zero_add]
      push_cast
      ring_nf
    have hden : ((inn.length : ℚ) + 1) ≠ 0 := by positivity
    refine chain_assignedY (gapY (first :: (inn ++ [lst]))) lst inn _ first rfl ?_
    rw [hG]
    field_simp
    ring

/-- C6: `distributeSelected(axis)` with fewer than 3 selected placeholders
leaves the state unchanged.  With at least 3 selected items of distinct ids
the guard is passed and, after sorting the selection by leading edge along the
axis, the slots outside the inner group keep their entries at their indices
(so the first and last of the sorted selection keep their positions and only
inner items move), and every adjacent pair of the distributed sorted selection
is separated by the equal gap
`(lastEdge - firstTrailingEdge - sumOfInnerExtents) / (count - 1)`. -/
theorem c6_distribute_exact (s : DesignerState) (ax : Axis)
    (sel : List Int) (ps : List Placeholder)
    (hnd : (ps.map (·.id)).Nodup) :
    (s.selectedIds.length < 3 → distributeSelected s ax = s) ∧
    (¬ sel.length < 3 → 3 ≤ (sortedSelX sel ps).length →
      (∀ (i : ℕ) (p : Placeholder), ps[i]? = some p →
        p.id ∉ (innerX sel ps).map (·.id) →
        (distributeListX sel ps)[i]? = some p) ∧
      (distributeAssignedX sel ps).head? = (sortedSelX sel ps).head? ∧
      (distributeAssignedX sel ps).getLast? = (sortedSelX sel ps).getLast? ∧
      List.Chain' (fun a b => b.x - (a.x + a.width) = gapX (sortedSelX sel ps))
        (distributeAssignedX sel ps)) ∧
    (¬ sel.length < 3 → 3 ≤ (sortedSelY sel ps).length →
      (∀ (i : ℕ) (p : Placeholder), ps[i]? = some p →
        p.id ∉ (innerY sel ps).map (·.id) →
        (distributeListY sel ps)[i]? = some p) ∧
      (distributeAssignedY sel ps).head? = (sortedSelY sel ps).head? ∧
      (distributeAssignedY sel ps).getLast? = (sortedSelY sel ps).getLast? ∧
      List.Chain' (fun a b => b.y - (a.y + a.height) = gapY (sortedSelY sel ps))
        (distributeAssignedY sel ps)) := by
  refine ⟨fun h => ?_, fun h1 h2 => distributeX_main sel ps h1 hnd h2,
    fun h1 h2 => distributeY_main sel ps h1 hnd h2⟩
  unfold distributeSelected
  rw [if_pos h]

/-- Witness for C6 at a concrete three-slot layout with ids 1, 2, 3. -/
theorem c6_distribute_exact_witness :
    ((([⟨1, 0, 0, 1/10, 1/10, none, Fit.cover⟩,
      ⟨2, 8/10, 0, 1/10, 1/10, none, Fit.cover⟩,
      ⟨3, 2/10, 0, 1/10, 1/10, none, Fit.cover⟩] : List Placeholder)).map (·.id)).Nodup ∧
    (((⟨([⟨1, 0, 0, 1/10, 1/10, none, Fit.cover⟩,
        ⟨2, 8/10, 0, 1/10, 1/10, none, Fit.cover⟩,
        ⟨3, 2/10, 0, 1/10, 1/10, none, Fit.cover⟩], []), 0, [([], [])], 0,
      [1, 2, 3], [], (none, none), (true, true), 800, 600⟩ : DesignerState).selectedIds.length < 3 → distributeSelected (⟨([⟨1, 0, 0, 1/10, 1/10, none, Fit.cover⟩,
        ⟨2, 8/10, 0, 1/10, 1/10, none, Fit.cover⟩,
        ⟨3, 2/10, 0, 1/10, 1/10, none, Fit.cover⟩], []), 0, [([], [])], 0,
      [1, 2, 3], [], (none, none), (true, true), 800, 600⟩ : DesignerState) Axis.horizontal =
      (⟨([⟨1, 0, 0, 1/10, 1/10, none, Fit.cover⟩,
        ⟨2, 8/10, 0, 1/10, 1/10, none, Fit.cover⟩,
        ⟨3, 2/10, 0, 1/10, 1/10, none, Fit.cover⟩], []), 0, [([], [])], 0,
      [1, 2, 3], [], (none, none), (true, true), 800, 600⟩ : DesignerState)) ∧
    (¬ ([1, 2, 3] : List Int).length < 3 → 3 ≤ (sortedSelX ([1, 2, 3] : List Int) ([⟨1, 0, 0, 1/10, 1/10, none, Fit.cover⟩,
      ⟨2, 8/10, 0, 1/10, 1/10, none, Fit.cover⟩,
      ⟨3, 2/10, 0, 1/10, 1/10, none, Fit.cover⟩] : List Placeholder)).length →
      (∀ (i : ℕ) (p : Placeholder), ([⟨1, 0, 0, 1/10, 1/10, none, Fit.cover⟩,
      ⟨2, 8/10, 0, 1/10, 1/10, none, Fit.cover⟩,
      ⟨3, 2/10, 0, 1/10, 1/10, none, Fit.cover⟩] : List Placeholder)[i]? = some p →
        p.id ∉ (innerX ([1, 2, 3] : List Int) ([⟨1, 0, 0, 1/10, 1/10, none, Fit.cover⟩,
      ⟨2, 8/10, 0, 1/10, 1/10, none, Fit.cover⟩,
      ⟨3, 2/10, 0, 1/10, 1/10, none, Fit.cover⟩] : List Placeholder)).map (·.id) →
        (distributeListX ([1, 2, 3] : List Int) ([⟨1, 0, 0, 1/10, 1/10, none, Fit.cover⟩,
      ⟨2, 8/10, 0, 1/10, 1/10, none, Fit.cover⟩,
      ⟨3, 2/10, 0, 1/10, 1/10, none, Fit.cover⟩] : List Placeholder))[i]? = some p) ∧
      (distributeAssignedX ([1, 2, 3] : List Int) ([⟨1, 0, 0, 1/10, 1/10, none, Fit.cover⟩,
      ⟨2, 8/10, 0, 1/10, 1/10, none, Fit.cover⟩,
      ⟨3, 2/10, 0, 1/10, 1/10, none, Fit.cover⟩] : List Placeholder)).head? = (sortedSelX ([1, 2, 3] : List Int) ([⟨1, 0, 0, 1/10, 1/10, none, Fit.cover⟩,
      ⟨2, 8/10, 0, 1/10, 1/10, none, Fit.cover⟩,
      ⟨3, 2/10, 0, 1/10, 1/10, none, Fit.cover⟩] : List Placeholder)).head? ∧
      (distributeAssignedX ([1, 2, 3] : List Int) ([⟨1, 0, 0, 1/10, 1/10, none, Fit.cover⟩,
      ⟨2, 8/10, 0, 1/10, 1/10, none, Fit.cover⟩,
      ⟨3, 2/10, 0, 1/10, 1/10, none, Fit.cover⟩] : List Placeholder)).getLast? = (sortedSelX ([1, 2, 3] : List Int) ([⟨1, 0, 0, 1/10, 1/10, none, Fit.cover⟩,
      ⟨2, 8/10, 0, 1/10, 1/10, none, Fit.cover⟩,
      ⟨3, 2/10, 0, 1/10, 1/10, none, Fit.cover⟩] : List Placeholder)).getLast? ∧
      List.Chain' (fun a b => b.x - (a.x + a.width) = gapX (sortedSelX ([1, 2, 3] : List Int) ([⟨1, 0, 0, 1/10, 1/10, none, Fit.cover⟩,
      ⟨2, 8/10, 0, 1/10, 1/10, none, Fit.cover⟩,
      ⟨3, 2/10, 0, 1/10, 1/10, none, Fit.cover⟩] : List Placeholder)))
        (distributeAssignedX ([1, 2, 3] : List Int) ([⟨1, 0, 0, 1/10, 1/10, none, Fit.cover⟩,
      ⟨2, 8/10, 0, 1/10, 1/10, none, Fit.cover⟩,
      ⟨3, 2/10, 0, 1/10, 1/10, none, Fit.cover⟩] : List Placeholder))) ∧
    (¬ ([1, 2, 3] : List Int).length < 3 → 3 ≤ (sortedSelY ([1, 2, 3] : List Int) ([⟨1, 0, 0, 1/10, 1/10, none, Fit.cover⟩,
      ⟨2, 8/10, 0, 1/10, 1/10, none, Fit.cover⟩,
      ⟨3, 2/10, 0, 1/10, 1/10, none, Fit.cover⟩] : List Placeholder)).length →
      (∀ (i : ℕ) (p : Placeholder), ([⟨1, 0, 0, 1/10, 1/10, none, Fit.cover⟩,
      ⟨2, 8/10, 0, 1/10, 1/10, none, Fit.cover⟩,
      ⟨3, 2/10, 0, 1/10, 1/10, none, Fit.cover⟩] : List Placeholder)[i]? = some p →
        p.id ∉ (innerY ([1, 2, 3] : List Int) ([⟨1, 0, 0, 1/10, 1/10, none, Fit.cover⟩,
      ⟨2, 8/10, 0, 1/10, 1/10, none, Fit.cover⟩,
      ⟨3, 2/10, 0, 1/10, 1/10, none, Fit.cover⟩] : List Placeholder)).map (·.id) →
        (distributeListY ([1, 2, 3] : List Int) ([⟨1, 0, 0, 1/10, 1/10, none, Fit.cover⟩,
      ⟨2, 8/10, 0, 1/10, 1/10, none, Fit.cover⟩,
      ⟨3, 2/10, 0, 1/10, 1/10, none, Fit.cover⟩] : List Placeholder))[i]? = some p) ∧
      (distributeAssignedY ([1, 2, 3] : List Int) ([⟨1, 0, 0, 1/10, 1/10, none, Fit.cover⟩,
      ⟨2, 8/10, 0, 1/10, 1/10, none, Fit.cover⟩,
      ⟨3, 2/10, 0, 1/10, 1/10, none, Fit.cover⟩] : List Placeholder)).head? = (sortedSelY ([1, 2, 3] : List Int) ([⟨1, 0, 0, 1/10, 1/10, none, Fit.cover⟩,
      ⟨2, 8/10, 0, 1/10, 1/10, none, Fit.cover⟩,
      ⟨3, 2/10, 0, 1/10, 1/10, none, Fit.cover⟩] : List Placeholder)).head? ∧
      (distributeAssignedY ([1, 2, 3] : List Int) ([⟨1, 0, 0, 1/10, 1/10, none, Fit.cover⟩,
      ⟨2, 8/10, 0, 1/10, 1/10, none, Fit.cover⟩,
      ⟨3, 2/10, 0, 1/10, 1/10, none, Fit.cover⟩] : List Placeholder)).getLast? = (sortedSelY ([1, 2, 3] : List Int) ([⟨1, 0, 0, 1/10, 1/10, none, Fit.cover⟩,
      ⟨2, 8/10, 0, 1/10, 1/10, none, Fit.cover⟩,
      ⟨3, 2/10, 0, 1/10, 1/10, none, Fit.cover⟩] : List Placeholder)).getLast? ∧
      List.Chain' (fun a b => b.y - (a.y + a.height) = gapY (sortedSelY ([1, 2, 3] : List Int) ([⟨1, 0, 0, 1/10, 1/10, none, Fit.cover⟩,
      ⟨2, 8/10, 0, 1/10, 1/10, none, Fit.cover⟩,
      ⟨3, 2/10, 0, 1/10, 1/10, none, Fit.cover⟩] : List Placeholder)))
        (distributeAssignedY ([1, 2, 3] : List Int) ([⟨1, 0, 0, 1/10, 1/10, none, Fit.cover⟩,
      ⟨2, 8/10, 0, 1/10, 1/10, none, Fit.cover⟩,
      ⟨3, 2/10, 0, 1/10, 1/10, none, Fit.cover⟩] : List Placeholder)))) :=
  ⟨by decide,
    c6_distribute_exact _ Axis.horizontal _ _ (by decide)⟩

/-! ### C4 — move-gesture snapping -/

/-- The absolute deviation of one snap candidate `(line, anchor)` under raw
delta `d`: how far the shifted anchor `anchor + d` is from the line. -/
def devOf (d : ℚ) (c : ℚ × ℚ) : ℚ :=
  jsAbs (c.2 + d - c.1)

/-- The moving-branch snap candidates in iteration order: for each candidate
line, the left edge, the right edge, then the center of the selection's
bounding box. -/
def candListMove (minX maxX : ℚ) (lines : List ℚ) : List (ℚ × ℚ) :=
  lines.flatMap (fun line => [(line, minX), (line, maxX), (line, (minX + maxX) / 2)])

theorem foldl_moveSnapStep_eq (dx minX maxX : ℚ) (lines : List ℚ) (st : SnapState) :
    lines.foldl (moveSnapStep dx minX maxX) st =
      (candListMove minX maxX lines).foldl (fun s k => snapCand dx s k.1 k.2) st := by
  induction lines generalizing st with
  | nil => rfl
  | cons l ls ih =>
    rw [List.foldl_cons]
    rw [show candListMove minX maxX (l :: ls) =
      (l, minX) :: (l, maxX) :: (l, (minX + maxX) / 2) :: candListMove minX maxX ls
      from rfl]
    rw [List.foldl_cons, List.foldl_cons, List.foldl_cons]
    exact ih _

theorem moveSnapAxis_eq_foldl (dx minX maxX thresh : ℚ) (lines : List ℚ) :
    moveSnapAxis dx minX maxX thresh lines =
      (candListMove minX maxX lines).foldl (fun s k => snapCand dx s k.1 k.2)
        ⟨thresh, dx, none⟩ :=
  foldl_moveSnapStep_eq dx minX maxX lines _

theorem snapCand_fire (dx : ℚ) (st : SnapState) (c : ℚ × ℚ)
    (h : devOf dx c < st.minDiff) :
    snapCand dx st c.1 c.2 = ⟨devOf dx c, c.1 - c.2, some c.1⟩ := by
  unfold devOf at h ⊢
  unfold snapCand
  rw [if_pos h]

theorem snapCand_skip (dx : ℚ) (st : SnapState) (c : ℚ × ℚ)
    (h : ¬ devOf dx c < st.minDiff) :
    snapCand dx st c.1 c.2 = st := by
  unfold devOf at h
  unfold snapCand
  rw [if_neg h]

theorem foldl_snapCand_keep (dx : ℚ) (cs : List (ℚ × ℚ)) (st : SnapState)
    (h : ∀ k ∈ cs, ¬ devOf dx k < st.minDiff) :
    cs.foldl (fun s k => snapCand dx s k.1 k.2) st = st := by
  induction cs with
  | nil => rfl
  | cons k ks ih =>
    rw [List.foldl_cons, snapCand_skip dx st k (h k (List.mem_cons_self k ks))]
    exact ih fun k' hk' => h k' (List.mem_cons_of_mem _ hk')

theorem foldl_snapCand_above (dx : ℚ) (cs : List (ℚ × ℚ)) (st : SnapState)
    (m : ℚ) (h : m < st.minDiff) (hcs : ∀ k ∈ cs, m < devOf dx k) :
    m < ((cs.foldl (fun s k => snapCand dx s k.1 k.2) st).minDiff) := by
  induction cs generalizing st with
  | nil => exact h
  | cons k ks ih =>
    rw [List.foldl_cons]
    refine ih _ ?_ (fun k' hk' => hcs k' (List.mem_cons_of_mem _ hk'))
    by_cases hc : devOf dx k < st.minDiff
    · rw [snapCand_fire dx st k hc]
      exact hcs k (List.mem_cons_self k ks)
    · rw [snapCand_skip dx st k hc]
      exact h

theorem foldl_snapCand_first_min (dx : ℚ) (cs₁ : List (ℚ × ℚ)) (c : ℚ × ℚ)
    (cs₂ : List (ℚ × ℚ)) (st : SnapState)
    (hlt : devOf dx c < st.minDiff)
    (hfirst : ∀ k ∈ cs₁, devOf dx c < devOf dx k)
    (hmin : ∀ k ∈ cs₂, ¬ devOf dx k < devOf dx c) :
    (cs₁ ++ c :: cs₂).foldl (fun s k => snapCand dx s k.1 k.2) st =
      ⟨devOf dx c, c.1 - c.2, some c.1⟩ := by
  rw [List.foldl_append, List.foldl_cons]
  have h1 : devOf dx c < (cs₁.foldl (fun s k => snapCand dx s k.1 k.2) st).minDiff :=
    foldl_snapCand_above dx cs₁ st (devOf dx c) hlt hfirst
  rw [snapCand_fire dx _ c h1]
  exact foldl_snapCand_keep dx cs₂ _ hmin

theorem candListMove_mem (minX maxX : ℚ) (lines : List ℚ) (k : ℚ × ℚ)
    (hk : k ∈ candListMove minX maxX lines) :
    k.1 ∈ lines ∧ (k.2 = minX ∨ k.2 = maxX ∨ k.2 = (minX + maxX) / 2) := by
  unfold candListMove at hk
  rw [List.mem_flatMap] at hk
  obtain ⟨l, hl, hkl⟩ := hk
  simp only [List.mem_cons, List.not_mem_nil, or_false] at hkl
  rcases hkl with h | h | h <;> subst h <;> exact ⟨hl, by simp⟩

theorem countP_two_opts (oX oY : Option ℚ) :
    (((match oX with
        | some line => [({ vertical := true, pos := line } : SnapGuide)]
        | none => []) ++
      (match oY with
        | some line => [({ vertical := false, pos := line } : SnapGuide)]
        | none => [])).countP (fun (g : SnapGuide) => g.vertical) ≤ 1) ∧
    (((match oX with
        | some line => [({ vertical := true, pos := line } : SnapGuide)]
        | none => []) ++
      (match oY with
        | some line => [({ vertical := false, pos := line } : SnapGuide)]
        | none => [])).countP (fun (g : SnapGuide) => !g.vertical) ≤ 1) := by
  cases oX <;> cases oY <;> simp [List.countP_cons]

theorem moveFrame_guide_count (sel : List Int) (initials ps : List Placeholder)
    (cw ch dx dy : ℚ) :
    ((moveFrame sel initials cw ch dx dy ps).2.countP (fun g => g.vertical) ≤ 1) ∧
    ((moveFrame sel initials cw ch dx dy ps).2.countP (fun g => !g.vertical) ≤ 1) := by
  unfold moveFrame
  dsimp only
  split
  · constructor <;> simp
  · exact countP_two_opts _ _

/-- C4: in the moving branch, if a tested point of the selection's bounding
box (left edge, right edge or center, shifted by the raw delta) comes within
the 10px-equivalent normalized threshold of a candidate line and that
candidate is the first one attaining the smallest absolute deviation in
iteration order, then the snap search reports exactly that line, the
corrected delta lands the tested point exactly on it (zero residual), the
reported deviation is that candidate's, the line is one of the candidate
lines and the anchor one of the three bounding-box test points, and the drag
frame emits at most one vertical and at most one horizontal guide. -/
theorem c4_move_snap (dx minX maxX cw : ℚ) (lines : List ℚ)
    (cs₁ cs₂ : List (ℚ × ℚ)) (c : ℚ × ℚ)
    (sel : List Int) (initials ps : List Placeholder) (ch dy : ℚ)
    (hdec : candListMove minX maxX lines = cs₁ ++ c :: cs₂)
    (hthresh : devOf dx c < SNAP_THRESHOLD_PX / cw)
    (hfirst : ∀ k ∈ cs₁, devOf dx c < devOf dx k)
    (hmin : ∀ k ∈ candListMove minX maxX lines, devOf dx c ≤ devOf dx k) :
    (moveSnapAxis dx minX maxX (SNAP_THRESHOLD_PX / cw) lines).snapped = some c.1 ∧
    (moveSnapAxis dx minX maxX (SNAP_THRESHOLD_PX / cw) lines).bestD = c.1 - c.2 ∧
    c.2 + (moveSnapAxis dx minX maxX (SNAP_THRESHOLD_PX / cw) lines).bestD = c.1 ∧
    (moveSnapAxis dx minX maxX (SNAP_THRESHOLD_PX / cw) lines).minDiff = devOf dx c ∧
    c.1 ∈ lines ∧ (c.2 = minX ∨ c.2 = maxX ∨ c.2 = (minX + maxX) / 2) ∧
    ((moveFrame sel initials cw ch dx dy ps).2.countP (fun g => g.vertical) ≤ 1 ∧
      (moveFrame sel initials cw ch dx dy ps).2.countP (fun g => !g.vertical) ≤ 1) := by
  have hax : moveSnapAxis dx minX maxX (SNAP_THRESHOLD_PX / cw) lines =
      ⟨devOf dx c, c.1 - c.2, some c.1⟩ := by
    rw [moveSnapAxis_eq_foldl, hdec]
    refine foldl_snapCand_first_min dx cs₁ c cs₂ _ hthresh hfirst ?_
    intro k hk
    have hk' : k ∈ candListMove minX maxX lines := by
      rw [hdec]
      exact List.mem_append_right _ (List.mem_cons_of_mem _ hk)
    exact not_lt.mpr (hmin k hk')
  have hc : c ∈ candListMove minX maxX lines := by
    rw [hdec]
    exact List.mem_append_right _ (List.mem_cons_self _ _)
  obtain ⟨hl, ha⟩ := candListMove_mem minX maxX lines c hc
  refine ⟨by rw [hax], by rw [hax], ?_, by rw [hax], hl, ha,
    moveFrame_guide_count sel initials ps cw ch dx dy⟩
  rw [hax]
  show c.2 + (c.1 - c.2) = c.1
  ring

/-- Witness for C4: dragging the unit-square slot 1 by `dx = 0.09` on an
800px-wide canvas snaps its right edge to the midline `0.5` with corrected
delta `0.1`. -/
theorem c4_move_snap_witness :
    (candListMove (1/5) (2/5) (vLinesOf [1] ([⟨1, 1/5, 1/5, 1/5, 1/5, none, Fit.cover⟩,
      ⟨2, 3/10, 6/10, 1/5, 1/5, none, Fit.cover⟩] : List Placeholder)) =
      ([(0, 1/5), (0, 2/5), (0, 3/10), (1/2, 1/5)] : List (ℚ × ℚ)) ++ ((1/2, 2/5) : ℚ × ℚ) :: ([(1/2, 3/10), (1, 1/5), (1, 2/5), (1, 3/10),
      (3/10, 1/5), (3/10, 2/5), (3/10, 3/10),
      (1/2, 1/5), (1/2, 2/5), (1/2, 3/10),
      (2/5, 1/5), (2/5, 2/5), (2/5, 3/10)] : List (ℚ × ℚ))) ∧
    devOf (9/100) ((1/2, 2/5) : ℚ × ℚ) < SNAP_THRESHOLD_PX / 800 ∧
    (∀ k ∈ ([(0, 1/5), (0, 2/5), (0, 3/10), (1/2, 1/5)] : List (ℚ × ℚ)), devOf (9/100) ((1/2, 2/5) : ℚ × ℚ) < devOf (9/100) k) ∧
    (∀ k ∈ candListMove (1/5) (2/5) (vLinesOf [1] ([⟨1, 1/5, 1/5, 1/5, 1/5, none, Fit.cover⟩,
      ⟨2, 3/10, 6/10, 1/5, 1/5, none, Fit.cover⟩] : List Placeholder)),
      devOf (9/100) ((1/2, 2/5) : ℚ × ℚ) ≤ devOf (9/100) k) ∧
    ((moveSnapAxis (9/100) (1/5) (2/5) (SNAP_THRESHOLD_PX / 800)
        (vLinesOf [1] ([⟨1, 1/5, 1/5, 1/5, 1/5, none, Fit.cover⟩,
      ⟨2, 3/10, 6/10, 1/5, 1/5, none, Fit.cover⟩] : List Placeholder))).snapped = some (1/2 : ℚ) ∧
      (moveSnapAxis (9/100) (1/5) (2/5) (SNAP_THRESHOLD_PX / 800)
        (vLinesOf [1] ([⟨1, 1/5, 1/5, 1/5, 1/5, none, Fit.cover⟩,
      ⟨2, 3/10, 6/10, 1/5, 1/5, none, Fit.cover⟩] : List Placeholder))).bestD = (1/2 : ℚ) - 2/5 ∧
      (2/5 : ℚ) + (moveSnapAxis (9/100) (1/5) (2/5) (SNAP_THRESHOLD_PX / 800)
        (vLinesOf [1] ([⟨1, 1/5, 1/5, 1/5, 1/5, none, Fit.cover⟩,
      ⟨2, 3/10, 6/10, 1/5, 1/5, none, Fit.cover⟩] : List Placeholder))).bestD = 1/2 ∧
      (moveSnapAxis (9/100) (1/5) (2/5) (SNAP_THRESHOLD_PX / 800)
        (vLinesOf [1] ([⟨1, 1/5, 1/5, 1/5, 1/5, none, Fit.cover⟩,
      ⟨2, 3/10, 6/10, 1/5, 1/5, none, Fit.cover⟩] : List Placeholder))).minDiff = devOf (9/100) ((1/2, 2/5) : ℚ × ℚ) ∧
      (1/2 : ℚ) ∈ vLinesOf [1] ([⟨1, 1/5, 1/5, 1/5, 1/5, none, Fit.cover⟩,
      ⟨2, 3/10, 6/10, 1/5, 1/5, none, Fit.cover⟩] : List Placeholder) ∧
      ((2/5 : ℚ) = 1/5 ∨ (2/5 : ℚ) = 2/5 ∨ (2/5 : ℚ) = (1/5 + 2/5) / 2) ∧
      ((moveFrame [1] ([⟨1, 1/5, 1/5, 1/5, 1/5, none, Fit.cover⟩,
      ⟨2, 3/10, 6/10, 1/5, 1/5, none, Fit.cover⟩] : List Placeholder) 800 600 (9/100) 0 ([⟨1, 1/5, 1/5, 1/5, 1/5, none, Fit.cover⟩,
      ⟨2, 3/10, 6/10, 1/5, 1/5, none, Fit.cover⟩] : List Placeholder)).2.countP
          (fun g => g.vertical) ≤ 1 ∧
        (moveFrame [1] ([⟨1, 1/5, 1/5, 1/5, 1/5, none, Fit.cover⟩,
      ⟨2, 3/10, 6/10, 1/5, 1/5, none, Fit.cover⟩] : List Placeholder) 800 600 (9/100) 0 ([⟨1, 1/5, 1/5, 1/5, 1/5, none, Fit.cover⟩,
      ⟨2, 3/10, 6/10, 1/5, 1/5, none, Fit.cover⟩] : List Placeholder)).2.countP
          (fun g => !g.vertical) ≤ 1)) :=
  ⟨by with_unfolding_all decide, by with_unfolding_all decide,
    by with_unfolding_all decide, by with_unfolding_all decide,
    c4_move_snap (9/100) (1/5) (2/5) 800 (vLinesOf [1] ([⟨1, 1/5, 1/5, 1/5, 1/5, none, Fit.cover⟩,
      ⟨2, 3/10, 6/10, 1/5, 1/5, none, Fit.cover⟩] : List Placeholder))
      ([(0, 1/5), (0, 2/5), (0, 3/10), (1/2, 1/5)] : List (ℚ × ℚ)) ([(1/2, 3/10), (1, 1/5), (1, 2/5), (1, 3/10),
      (3/10, 1/5), (3/10, 2/5), (3/10, 3/10),
      (1/2, 1/5), (1/2, 2/5), (1/2, 3/10),
      (2/5, 1/5), (2/5, 2/5), (2/5, 3/10)] : List (ℚ × ℚ)) ((1/2, 2/5) : ℚ × ℚ) [1] ([⟨1, 1/5, 1/5, 1/5, 1/5, none, Fit.cover⟩,
      ⟨2, 3/10, 6/10, 1/5, 1/5, none, Fit.cover⟩] : List Placeholder) ([⟨1, 1/5, 1/5, 1/5, 1/5, none, Fit.cover⟩,
      ⟨2, 3/10, 6/10, 1/5, 1/5, none, Fit.cover⟩] : List Placeholder) 600 0
      (by with_unfolding_all decide) (by with_unfolding_all decide)
      (by with_unfolding_all decide) (by with_unfolding_all decide)⟩

/-! ### C10 — embedded-mode emission -/

/-- C10 counterexample: in embedded mode, a settled removal that empties the
active list emits nothing (the `placeholders.length > 0` guard suppresses
it), while an ephemeral mouse-move drag frame that moves the slot does fire
`onPlaceholdersChange` (the effect is keyed on the placeholders value, which
changes on every drag frame). -/
theorem c10_emit_counterexample :
    (removeSelected
        { initState with
            layouts := ([⟨1, 1/10, 1/10, 1/5, 1/5, none, .cover⟩], [])
            selectedIds := [1] }).active = [] ∧
    emitAfter true
      ({ initState with
          layouts := ([⟨1, 1/10, 1/10, 1/5, 1/5, none, .cover⟩], [])
          selectedIds := [1] } : DesignerState).active
      (removeSelected
        { initState with
            layouts := ([⟨1, 1/10, 1/10, 1/5, 1/5, none, .cover⟩], [])
            selectedIds := [1] }).active = none ∧
    emitAfter true
      ({ initState with
          layouts := ([⟨1, 1/10, 1/10, 1/5, 1/5, none, .cover⟩], [])
          selectedIds := [1] } : DesignerState).active
      (dragMoveFrame
        { initState with
            layouts := ([⟨1, 1/10, 1/10, 1/5, 1/5, none, .cover⟩], [])
            selectedIds := [1] }
        [⟨1, 1/10, 1/10, 1/5, 1/5, none, .cover⟩] (1/10) 0).active =
      some [⟨1, 1/5, 1/10, 1/5, 1/5, none, .cover⟩] := by
  refine ⟨by with_unfolding_all decide, by with_unfolding_all decide,
    by with_unfolding_all decide⟩

/-- C10 (amended): in embedded mode `onPlaceholdersChange` fires after every
change of the active placeholder list that leaves it nonempty — including
ephemeral intermediate drag frames — and never fires when a mutation empties
the list. -/
theorem c10_emit_amended :
    (∀ (s : DesignerState),
      (removeSelected s).active = [] →
      emitAfter true s.active (removeSelected s).active = none) ∧
    (∀ (s : DesignerState) (initials : List Placeholder) (dx dy : ℚ),
      (dragMoveFrame s initials dx dy).active ≠ s.active →
      (dragMoveFrame s initials dx dy).active ≠ [] →
      emitAfter true s.active (dragMoveFrame s initials dx dy).active =
        some (dragMoveFrame s initials dx dy).active) := by
  constructor
  · intro s hempty
    rw [hempty]
    unfold emitAfter
    rw [if_neg]
    intro ⟨_, _, hlen⟩
    exact absurd hlen (by simp)
  · intro s initials dx dy hch hne
    unfold emitAfter
    rw [if_pos ⟨rfl, hch, by
      cases ha : (dragMoveFrame s initials dx dy).active with
      | nil => exact absurd ha hne
      | cons a t => simp⟩]

/-- C10 witness: the amended theorem at a concrete one-slot drag frame and a
concrete emptying removal. -/
theorem c10_emit_amended_witness :
    emitAfter true
      ({ initState with
          layouts := ([⟨1, 1/10, 1/10, 1/5, 1/5, none, .cover⟩], [])
          selectedIds := [1] } : DesignerState).active
      (removeSelected
        { initState with
            layouts := ([⟨1, 1/10, 1/10, 1/5, 1/5, none, .cover⟩], [])
            selectedIds := [1] }).active = none ∧
    emitAfter true
      ({ initState with
          layouts := ([⟨1, 1/10, 1/10, 1/5, 1/5, none, .cover⟩], [])
          selectedIds := [1] } : DesignerState).active
      (dragMoveFrame
        { initState with
            layouts := ([⟨1, 1/10, 1/10, 1/5, 1/5, none, .cover⟩], [])
            selectedIds := [1] }
        [⟨1, 1/10, 1/10, 1/5, 1/5, none, .cover⟩] (1/10) 0).active =
      some (dragMoveFrame
        { initState with
            layouts := ([⟨1, 1/10, 1/10, 1/5, 1/5, none, .cover⟩], [])
            selectedIds := [1] }
        [⟨1, 1/10, 1/10, 1/5, 1/5, none, .cover⟩] (1/10) 0).active :=
  ⟨c10_emit_amended.1 _ (by with_unfolding_all decide),
   c10_emit_amended.2 _ _ (1/10) 0 (by with_unfolding_all decide)
     (by with_unfolding_all decide)⟩

end TemplateDesigner
